import Mathlib

/-!
Verification of the interview-scheduler engine (`scheduler.py`) of the
repository against its natural-language specification.

Shallow embedding conventions:
* All wall-clock timestamps are integer minutes since a fixed global origin
  (the repository parses `YYYY-MM-DDTHH:MM` strings at minute granularity,
  so the minute count is a faithful representation of a timestamp).
  `minutes_since_epoch` subtracts the epoch; since Python uses unbounded
  ints, comparisons against possibly pre-epoch instants are expressed here
  by adding `epoch` to both sides instead of subtracting (equivalent over ℤ).
* Python dicts keyed by strings are represented by insertion-ordered
  association lists; dict iteration order is list order.
* The CP-SAT backend is external to the repository.  It is modelled by an
  oracle supplying, per stage permutation, the stream of solutions the
  enumeration callback would observe plus the optional single-shot fallback
  solution.  The constraint model that `_solve_single_permutation` builds is
  embedded as the executable predicate `modelSat`; "the solver is sound"
  (every reported solution satisfies the built model, and the reported
  objective value is the model's objective) is the bridge hypothesis used by
  the invariant theorems.
-/

/-- `InterviewerInfo` dataclass of `scheduler.py`. Loads are non-negative
integers per the data model (`current_load (int ≥ 0)`, `last2w_load (int ≥ 0)`). -/
structure InterviewerInfo where
  id : String
  current_load : Nat
  last2w_load : Nat
  mode : String
deriving DecidableEq, Repr, Inhabited

/-- `SeatRole` dataclass: a (seat, role) slot with its candidate pool. -/
structure SeatRole where
  seat_id : String
  role : String
  interviewers : List String
deriving DecidableEq, Repr, Inhabited

/-- `Stage` dataclass. -/
structure Stage where
  name : String
  duration_minutes : Nat
  seats : List SeatRole
  is_fixed : Bool := false
deriving DecidableEq, Repr, Inhabited

/-- `AvailabilityWindow` dataclass (times in absolute minutes; `end` is a
Lean keyword, rendered `end_`). -/
structure Window where
  start : Nat
  end_ : Nat
deriving DecidableEq, Repr, Inhabited

/-- `BusyInterval` dataclass (times in absolute minutes). -/
structure BusyInterval where
  interviewer_id : String
  start : Nat
  end_ : Nat
deriving DecidableEq, Repr, Inhabited

/-- Raw request shape of one stage (`stage_data` dict): `stage_name`,
`duration`, `is_fixed`, and the list of `seat_id`s of its `seats`. -/
structure StageInput where
  stage_name : String
  duration : Nat
  is_fixed : Bool := false
  seats : List String
deriving DecidableEq, Repr, Inhabited

/-- Scheduler configuration (the keyword arguments of
`OptimizedInterviewScheduler.__init__`; the wall-clock `max_time_seconds`
budget and the daily-availability strings do not affect any embedded
computation and are omitted). -/
structure Config where
  time_step : Nat := 15
  weekly_limit : Nat := 5
  require_distinct_days : Bool := false
  top_k_solutions : Nat := 50
  schedule_on_same_day : Bool := true
  min_gap_between_stages : Nat := 0
deriving DecidableEq, Repr, Inhabited

/-- The distinguishable `ValueError`s the scheduler raises (the Python
messages are interpolated strings; each constructor carries the message's
dynamic parts). -/
inductive SchedError where
  | noAvailability : SchedError
  | noStages : SchedError
  | invalidDuration (stageName : String) : SchedError
  | noSeats (stageName : String) : SchedError
  | emptyPool (seatId role : String) : SchedError
  | emptyPoolInStage (seatId role stageName : String) : SchedError
  | invalidWindow (start end_ : Nat) : SchedError
  | insufficientDays (found needed : Nat) : SchedError
deriving DecidableEq, Repr, Inhabited

instance instDecEqExcept {ε α : Type} [DecidableEq ε] [DecidableEq α] :
    DecidableEq (Except ε α) := fun a b =>
  match a, b with
  | Except.error e, Except.error f =>
      decidable_of_iff (e = f) ⟨fun h => by rw [h], fun h => by cases h; rfl⟩
  | Except.error _, Except.ok _ => isFalse (fun h => by cases h)
  | Except.ok _, Except.error _ => isFalse (fun h => by cases h)
  | Except.ok x, Except.ok y =>
      decidable_of_iff (x = y) ⟨fun h => by rw [h], fun h => by cases h; rfl⟩

/-- Insertion-ordered upsert, the behaviour of `interviewers[id] = info` on a
Python dict: an existing key keeps its position and takes the new value, a
new key is appended. -/
def dictUpsert (acc : List InterviewerInfo) (iv : InterviewerInfo) : List InterviewerInfo :=
  if acc.any (fun x => x.id == iv.id) then
    acc.map (fun x => if x.id == iv.id then iv else x)
  else
    acc ++ [iv]

/-- `OptimizedInterviewScheduler._parse_interviewers`: builds the
insertion-ordered id → record dict (here, the ordered list of records). -/
def parse_interviewers (ivs : List InterviewerInfo) : List InterviewerInfo :=
  ivs.foldl dictUpsert []

/-- The fixed role list `required_roles` of `_parse_stages`. -/
def requiredRoles : List String := ["trained", "shadow", "reverse_shadow"]

/-- `OptimizedInterviewScheduler._parse_stages`: for every seat of every
stage, one `SeatRole` per role in `requiredRoles`, whose pool is the ids of
the interviewers whose `mode` equals the role (exact string comparison). -/
def parse_stages (stagesData : List StageInput) (interviewers : List InterviewerInfo) :
    List Stage :=
  stagesData.map (fun sd =>
    { name := sd.stage_name
      duration_minutes := sd.duration
      is_fixed := sd.is_fixed
      seats := sd.seats.flatMap (fun seatId =>
        requiredRoles.map (fun role =>
          { seat_id := seatId
            role := role
            interviewers := (interviewers.filter (fun iv => iv.mode == role)).map
              (fun iv => iv.id) })) })

/-- The per-stage checks of `_validate_inputs` (duration, seats, candidate
pools), in source order, returning the first failure. -/
def validateStages : List Stage → Except SchedError Unit
  | [] => Except.ok ()
  | st :: rest =>
    if st.duration_minutes ≤ 0 then Except.error (SchedError.invalidDuration st.name)
    else if st.seats.isEmpty then Except.error (SchedError.noSeats st.name)
    else match st.seats.findSome? (fun sr =>
        if sr.interviewers.isEmpty then some (SchedError.emptyPool sr.seat_id sr.role)
        else none) with
      | some e => Except.error e
      | none => validateStages rest

/-- The window checks of `_validate_inputs`: every availability window must
have `start < end`. -/
def validateWindows : List Window → Except SchedError Unit
  | [] => Except.ok ()
  | w :: rest =>
    if w.start ≥ w.end_ then Except.error (SchedError.invalidWindow w.start w.end_)
    else validateWindows rest

/-- The set of calendar days touched by one window, as walked by
`_validate_inputs` (`window.start.date()` up to `window.end.date()`
inclusive); day number of an absolute minute `t` is `t / 1440`. -/
def windowDays (w : Window) : Finset Nat :=
  Finset.Icc (w.start / 1440) (w.end_ / 1440)

/-- The distinct calendar days covered by the availability windows. -/
def distinctDays : List Window → Finset Nat
  | [] => ∅
  | w :: rest => distinctDays rest ∪ windowDays w

/-- The distinct-day count check of `_validate_inputs`, performed only when
`schedule_on_same_day` is false. -/
def validateDays (cfg : Config) (stages : List Stage) (windows : List Window) :
    Except SchedError Unit :=
  if cfg.schedule_on_same_day then Except.ok ()
  else
    let found := (distinctDays windows).card
    if found < stages.length then
      Except.error (SchedError.insufficientDays found stages.length)
    else Except.ok ()

/-- `OptimizedInterviewScheduler._validate_inputs`, check order as in the
source: stages non-empty, then the per-stage checks, then the window checks,
then the distinct-day count. -/
def validate_inputs (cfg : Config) (stages : List Stage) (windows : List Window) :
    Except SchedError Unit :=
  if stages.isEmpty then Except.error SchedError.noStages
  else match validateStages stages with
    | Except.error e => Except.error e
    | Except.ok _ =>
      match validateWindows windows with
      | Except.error e => Except.error e
      | Except.ok _ => validateDays cfg stages windows

/-- `min(w.start for w in availability)` (callers guarantee the list is
non-empty; `0` on the empty list is a junk value never used). -/
def epochOf : List Window → Nat
  | [] => 0
  | w :: rest => rest.foldl (fun m x => min m x.start) w.start

/-- First-occurrence deduplication (Python `set` membership recorded in
insertion order / dict key order), with an accumulator of already-seen keys. -/
def dedupFirstAux : List String → List String → List String
  | [], _ => []
  | x :: xs, seen =>
    if x ∈ seen then dedupFirstAux xs seen else x :: dedupFirstAux xs (x :: seen)

/-- First-occurrence deduplication of a list of strings. -/
def dedupFirst (l : List String) : List String := dedupFirstAux l []

/-- `sorted(set(...))` over interviewer ids: deduplicate, then sort
lexicographically.  (Everything consuming this list — sums, `all` — is
order-independent, so the sort only mirrors the source.) -/
def sortedDedup (l : List String) : List String :=
  (dedupFirst l).insertionSort (fun a b => a ≤ b)

/-- `self.all_interviewers`: the sorted set of all interviewer ids occurring
in any candidate pool of any seat of any stage. -/
def all_interviewers (stages : List Stage) : List String :=
  sortedDedup (stages.flatMap (fun st => st.seats.flatMap (fun sr => sr.interviewers)))

/-- The normalized scheduler state produced by
`OptimizedInterviewScheduler.__init__` (the `self.*` fields that the solve
paths read). -/
structure SchedState where
  cfg : Config
  interviewers : List InterviewerInfo
  stages : List Stage
  availability : List Window
  busy : List BusyInterval
  epoch : Nat
  allInterviewers : List String
deriving DecidableEq, Repr, Inhabited

/-- `OptimizedInterviewScheduler.__init__`: parse interviewers, parse
stages, parse windows and busy intervals, fail when there is no availability
window, compute the epoch and the interviewer universe, then run
`_validate_inputs`. -/
def scheduler_init (cfg : Config) (stagesData : List StageInput)
    (ivsData : List InterviewerInfo) (windows : List Window)
    (busy : List BusyInterval) : Except SchedError SchedState :=
  let interviewers := parse_interviewers ivsData
  let stages := parse_stages stagesData interviewers
  if windows.isEmpty then Except.error SchedError.noAvailability
  else
    let epoch := epochOf windows
    let allIvs := all_interviewers stages
    match validate_inputs cfg stages windows with
    | Except.error e => Except.error e
    | Except.ok _ =>
      Except.ok { cfg := cfg, interviewers := interviewers, stages := stages,
                  availability := windows, busy := busy, epoch := epoch,
                  allInterviewers := allIvs }

/-- The reconstruction loop of `generate_stage_permutations` for the mixed
fixed/non-fixed case: walk the original stage list, keep each fixed stage at
its position, and fill non-fixed positions from the permuted non-fixed
stages in order.  (The Python variant indexes an `arrangement` array of the
same length; running out of permuted stages is impossible there and mapped
to truncation here.) -/
def insertFixed : List Stage → List Stage → List Stage
  | [], _ => []
  | st :: rest, perm =>
    if st.is_fixed then st :: insertFixed rest perm
    else match perm with
      | [] => []
      | p :: ps => p :: insertFixed rest ps

/-- All ways to pick one element of a list together with the remaining
elements in their original order (the branching step of
`itertools.permutations`). -/
def selectEach {α : Type} : List α → List (α × List α)
  | [] => []
  | x :: xs => (x, xs) :: (selectEach xs).map (fun p => (p.1, x :: p.2))

/-- Fuel-indexed permutation enumeration (fuel = list length at every call). -/
def pyPermAux {α : Type} : Nat → List α → List (List α)
  | 0, _ => [[]]
  | Nat.succ n, l =>
    (selectEach l).flatMap (fun p => (pyPermAux n p.2).map (fun q => p.1 :: q))

/-- `itertools.permutations` as a list of lists, in itertools emission order
(lexicographic in source positions). -/
def pyPermutations {α : Type} (l : List α) : List (List α) :=
  pyPermAux l.length l

/-- `generate_stage_permutations`: all orderings of the stage list that keep
every `is_fixed` stage at its original index.  All fixed → the one original
order; none fixed → all permutations; otherwise permute the non-fixed stages
over the non-fixed positions. -/
def generate_stage_permutations (stages : List Stage) : List (List Stage) :=
  let numFixed := (stages.filter (fun st => st.is_fixed)).length
  let nonFixed := stages.filter (fun st => !st.is_fixed)
  if numFixed = stages.length then [stages]
  else if numFixed = 0 then pyPermutations nonFixed
  else (pyPermutations nonFixed).map (fun perm => insertFixed stages perm)

/-- One scheduled event as extracted into the response: times are absolute
minutes (`to_iso(datetime_from_minutes(value, epoch))` in the source), the
per-role assignment maps are insertion-ordered `seat_id → interviewer_id`
association lists (missing dict keys are empty lists). -/
structure Event where
  stage_name : String
  duration : Nat
  start : Nat
  end_ : Nat
  trained : List (String × String)
  shadow : List (String × String)
  reverse_shadow : List (String × String)
deriving DecidableEq, Repr, Inhabited

/-- The raw solution dict built by `_extract_solution_data_perm` (its
`interviewer_assignments` companion map is dead weight for the formatter and
enricher and is omitted). -/
structure SolData where
  events : List Event
deriving DecidableEq, Repr, Inhabited

/-- The values of the decision variables of one feasible CP-SAT solution:
the per-stage `start_time` values (minutes since epoch) and the set of
`assign_(stage_idx, seat_id, role, interviewer_id)` booleans that are true. -/
structure RawSolution where
  starts : List Nat
  assigns : List (Nat × String × String × String)
deriving DecidableEq, Repr, Inhabited

/-- What the external CP-SAT solver reports for one permutation's model:
the stream of feasible solutions seen by the enumeration callback, in
callback order, and the solution of the single-shot fallback solve (`none`
when that solve is not OPTIMAL/FEASIBLE). -/
structure SolverOutput where
  enumerated : List RawSolution
  fallback : Option RawSolution
deriving DecidableEq, Repr, Inhabited

/-- `used_{i,iv}`: whether interviewer `iv` has any true assignment variable
in stage `i` (the model constrains `interviewer_stage_vars` to equal exactly
this). -/
def usedB (sol : RawSolution) (i : Nat) (iv : String) : Bool :=
  sol.assigns.any (fun e => e.1 == i && e.2.2.2 == iv)

/-- `MIN_GAP_MINUTES` of `_solve_single_permutation`. -/
def gapG (cfg : Config) : Nat :=
  if cfg.schedule_on_same_day then max 120 cfg.min_gap_between_stages
  else max (24 * 60) cfg.min_gap_between_stages

/-- `max(minutes_since_epoch(w.end, epoch) for w in availability)` — the
`latest_end` bound of the model. -/
def latestEnd (windows : List Window) (epoch : Nat) : Nat :=
  windows.foldl (fun m w => max m (w.end_ - epoch)) 0

/-- The constraint model `_solve_single_permutation` builds for the stage
ordering `perm`, as a decidable predicate on a solution's variable values.
The reified helper booleans of the source (`in_window`, `j_after_i`,
`before_busy`/`after_busy`, `interviewer_stage_vars`) are existentially
projected out: `in_window` reification becomes "inside some window",
ordering booleans become the disjunction of the two sides, busy-interval
booleans become the no-overlap disjunction guarded by `used`, and
`interviewer_stage_vars` is the derived `usedB`.  Comparisons that the
source makes on possibly-negative `minutes_since_epoch` values are stated
with `epoch` added to both sides (equivalent over ℤ). -/
def modelSat (cfg : Config) (ivs : List InterviewerInfo) (allIvs : List String)
    (windows : List Window) (busy : List BusyInterval) (epoch : Nat)
    (perm : List Stage) (sol : RawSolution) : Bool :=
  let n := perm.length
  let lend := latestEnd windows epoch
  let start := fun i => sol.starts.getD i 0
  let dur := fun i => (perm.getD i default).duration_minutes
  -- one start value per stage
  (sol.starts.length == n) &&
  -- start_steps grid alignment and end-variable domain [0, latest_end]
  ((List.range n).all (fun i =>
    start i % cfg.time_step == 0 && start i + dur i ≤ lend)) &&
  -- ordering with minimum gap
  ((List.range (n - 1)).all (fun i =>
    start i + dur i + gapG cfg ≤ start (i + 1))) &&
  -- containment in (exactly) one availability window
  ((List.range n).all (fun i =>
    windows.any (fun w =>
      w.start ≤ epoch + start i && epoch + start i + dur i ≤ w.end_))) &&
  -- distinct days when required
  (!(cfg.require_distinct_days || !cfg.schedule_on_same_day) ||
    (List.range n).all (fun i => (List.range n).all (fun j =>
      !(decide (i < j)) ||
        (start i + 1440 ≤ start j || start j + 1440 ≤ start i)))) &&
  -- true assignment variables exist in the model (valid stage/seat/role/pool)
  (sol.assigns.all (fun e =>
    decide (e.1 < n) && (perm.getD e.1 default).seats.any (fun sr =>
      sr.seat_id == e.2.1 && sr.role == e.2.2.1 &&
        sr.interviewers.contains e.2.2.2))) &&
  -- exactly one interviewer per seat-role
  ((List.range n).all (fun i => (perm.getD i default).seats.all (fun sr =>
    sr.interviewers.countP
      (fun iv => sol.assigns.contains (i, sr.seat_id, sr.role, iv)) == 1))) &&
  -- an interviewer appears at most once per stage
  ((List.range n).all (fun i => allIvs.all (fun iv =>
    sol.assigns.countP (fun e => e.1 == i && e.2.2.2 == iv) ≤ 1))) &&
  -- busy-interval non-overlap for every used interviewer
  ((List.range n).all (fun i => busy.all (fun b =>
    !(usedB sol i b.interviewer_id) ||
      (epoch + start i + dur i ≤ b.start || b.end_ ≤ epoch + start i)))) &&
  -- weekly limit per interviewer with a known record
  (allIvs.all (fun ivid =>
    match ivs.find? (fun r => r.id == ivid) with
    | some info =>
        ((List.range n).countP (fun i => usedB sol i ivid)) + info.current_load
          ≤ cfg.weekly_limit
    | none => true))

/-- The objective value `100 * Σ (1 + last2w_load) * used_{i,iv} +
(end_{n-1} - start_0)` of the model, as `int(solver.ObjectiveValue())`
reports it for a feasible solution. -/
def objectiveValue (ivs : List InterviewerInfo) (allIvs : List String)
    (perm : List Stage) (sol : RawSolution) : Int :=
  let n := perm.length
  let start := fun i => sol.starts.getD i 0
  let dur := fun i => (perm.getD i default).duration_minutes
  let cost : Nat := allIvs.foldl (fun acc ivid =>
    match ivs.find? (fun r => r.id == ivid) with
    | some info =>
        acc + (1 + info.last2w_load) *
          ((List.range n).countP (fun i => usedB sol i ivid))
    | none => acc) 0
  100 * (cost : Int) + ((start (n - 1) + dur (n - 1) : Nat) : Int) - (start 0 : Int)

/-- The seat ids of a stage in first-occurrence order (the key order of the
`seat_id`-keyed dicts the source builds from `stage.seats`). -/
def seatIdsOf (st : Stage) : List String :=
  dedupFirst (st.seats.map (fun sr => sr.seat_id))

/-- The `role → seat_id → interviewer_id` extraction of
`_extract_solution_data_perm` for one stage and one role: for each seat (in
first-occurrence order) the interviewer whose assignment variable for that
(stage, seat, role) is true, if any. -/
def roleMapOf (assigns : List (Nat × String × String × String)) (i : Nat)
    (st : Stage) (role : String) : List (String × String) :=
  (seatIdsOf st).filterMap (fun sid =>
    (assigns.find? (fun e => e.1 == i && e.2.1 == sid && e.2.2.1 == role)).map
      (fun e => (sid, e.2.2.2)))

/-- `_extract_solution_data_perm`: one event per stage of the permutation,
in permutation order, with absolute times `epoch + start_i` and the per-role
assignment maps. -/
def extractSolData (epoch : Nat) (perm : List Stage) (sol : RawSolution) : SolData :=
  ⟨(List.range perm.length).map (fun i =>
    let st := perm.getD i default
    let s := sol.starts.getD i 0
    { stage_name := st.name
      duration := st.duration_minutes
      start := epoch + s
      end_ := epoch + s + st.duration_minutes
      trained := roleMapOf sol.assigns i st "trained"
      shadow := roleMapOf sol.assigns i st "shadow"
      reverse_shadow := roleMapOf sol.assigns i st "reverse_shadow" })⟩

/-- The re-check for empty candidate pools at the top of the assignment
loop of `_solve_single_permutation` (raises with a message naming the stage). -/
def emptyPoolCheck (perm : List Stage) : Except SchedError Unit :=
  match perm.findSome? (fun st => st.seats.findSome? (fun sr =>
      if sr.interviewers.isEmpty then
        some (SchedError.emptyPoolInStage sr.seat_id sr.role st.name)
      else none)) with
  | some e => Except.error e
  | none => Except.ok ()

/-- `_solve_single_permutation`: collect up to `cap` solutions from the
enumeration callback (the callback appends while
`len(self.solutions) < max_solutions_needed`, i.e. it keeps the first `cap`
of the enumerated stream); if that yields nothing, fall back to the
single-shot solve.  Scores are the model's objective values. -/
def solve_single_permutation (ivs : List InterviewerInfo) (allIvs : List String)
    (epoch : Nat) (perm : List Stage) (out : SolverOutput) (cap : Nat) :
    Except SchedError (List (Int × SolData)) :=
  match emptyPoolCheck perm with
  | Except.error e => Except.error e
  | Except.ok _ =>
    let collected := (out.enumerated.take cap).map (fun sol =>
      (objectiveValue ivs allIvs perm sol, extractSolData epoch perm sol))
    if collected.isEmpty then
      match out.fallback with
      | some sol =>
          Except.ok [(objectiveValue ivs allIvs perm sol, extractSolData epoch perm sol)]
      | none => Except.ok []
    else
      Except.ok collected

/-- The permutation loop of `solve`, exposing each permutation's
contribution to `all_solutions`: the cap passed to permutation `p` is
`top_k_solutions` minus the number of solutions collected before `p`
(truncated at zero, as `remaining_solutions = max(0, K - len(all_solutions))`). -/
def solveContribs (cfg : Config) (ivs : List InterviewerInfo) (allIvs : List String)
    (epoch : Nat) :
    List (List Stage × SolverOutput) → Nat → Except SchedError (List (List (Int × SolData)))
  | [], _ => Except.ok []
  | (perm, out) :: rest, collected =>
    match solve_single_permutation ivs allIvs epoch perm out
        (cfg.top_k_solutions - collected) with
    | Except.error e => Except.error e
    | Except.ok sols =>
      match solveContribs cfg ivs allIvs epoch rest (collected + sols.length) with
      | Except.error e => Except.error e
      | Except.ok more => Except.ok (sols :: more)

/-- The sort key of `all_solutions.sort(key=lambda x: x[0])`: compare
solutions by score.  Python's sort is stable; `List.insertionSort` with this
relation is the stable sort by the same key. -/
def scoreLe (a b : Int × SolData) : Prop := a.1 ≤ b.1

instance : DecidableRel scoreLe := fun a b => inferInstanceAs (Decidable (a.1 ≤ b.1))

instance : IsTotal (Int × SolData) scoreLe := ⟨fun a b => Int.le_total a.1 b.1⟩

instance : IsTrans (Int × SolData) scoreLe := ⟨fun _ _ _ h h2 => le_trans h h2⟩

/-- The per-schedule reporting metrics.  `efficiency` is Python's
`round(total_duration / span_minutes, 3)`; the float division and rounding
are modelled exactly over ℚ (`round` is rounding to the nearest integer). -/
structure Metrics where
  total_span_minutes : Int
  idle_time_minutes : Int
  efficiency : ℚ
deriving DecidableEq, Repr, Inhabited

/-- One formatted schedule entry `{score, events, metrics}`. -/
structure FormattedSchedule where
  score : Int
  events : List Event
  metrics : Metrics
deriving DecidableEq, Repr, Inhabited

/-- The response `{status, schedules}`; `schedules` is the insertion-ordered
dict `"schedule1" ↦ …, "schedule2" ↦ …`. -/
structure SolveResult where
  status : String
  schedules : List (String × FormattedSchedule)
deriving DecidableEq, Repr, Inhabited

/-- Round a rational to three decimal places (`round(x, 3)`). -/
def round3 (q : ℚ) : ℚ := (round (1000 * q) : ℤ) / 1000

/-- The metrics block of `_format_top_solutions`:
`total_duration = Σ duration`, and for a non-empty event list
`span = events[-1].end - events[0].start` and `idle = span - total_duration`
(both 0 otherwise); `efficiency = round(total_duration / span, 3)` when
`span > 0`, else `0`. -/
def metricsOf (events : List Event) : Metrics :=
  let total_duration : Nat := (events.map (fun e => e.duration)).sum
  match events with
  | [] => { total_span_minutes := 0, idle_time_minutes := 0, efficiency := 0 }
  | e0 :: _ =>
    let span : Int := ((events.getLastD e0).end_ : Int) - (e0.start : Int)
    { total_span_minutes := span
      idle_time_minutes := span - total_duration
      efficiency :=
        if 0 < span then round3 ((total_duration : ℚ) / (span : ℚ)) else 0 }

/-- `_format_top_solutions`: an empty solution list is INFEASIBLE;
otherwise number the solutions `schedule1`, `schedule2`, … in list order,
attaching score, events and metrics, under the given status name. -/
def format_top_solutions (sols : List (Int × SolData)) (statusName : String) :
    SolveResult :=
  if sols.isEmpty then { status := "INFEASIBLE", schedules := [] }
  else
    { status := statusName
      schedules := sols.enum.map (fun p =>
        ("schedule" ++ toString (p.1 + 1),
         { score := p.2.1, events := p.2.2.events, metrics := metricsOf p.2.2.events })) }

/-- `OptimizedInterviewScheduler.solve`: enumerate the stage permutations,
collect each permutation's solutions under the running quota, merge, sort
ascending by score, truncate to `top_k_solutions`, and format (the source
passes the constant `cp_model.OPTIMAL` status when any solution exists, and
returns INFEASIBLE otherwise).  The external solver's reports are supplied
by `oracle`, one entry per permutation. -/
def scheduler_solve (cfg : Config) (ivs : List InterviewerInfo)
    (allIvs : List String) (epoch : Nat) (stages : List Stage)
    (oracle : List SolverOutput) : Except SchedError SolveResult :=
  let perms := generate_stage_permutations stages
  match solveContribs cfg ivs allIvs epoch (perms.zip oracle) 0 with
  | Except.error e => Except.error e
  | Except.ok contribs =>
    let allSolutions := contribs.flatten
    let topSolutions := (allSolutions.insertionSort scoreLe).take cfg.top_k_solutions
    if topSolutions.isEmpty then
      Except.ok { status := "INFEASIBLE", schedules := [] }
    else
      Except.ok (format_top_solutions topSolutions "OPTIMAL")

/-- `_find_available_interviewers`: keep the interviewers none of whose busy
intervals overlaps `[event_start, event_end)`; overlap of the event with
busy `b` is `¬(event_end ≤ b.start ∨ b.end ≤ event_start)`. -/
def find_available_interviewers (ivs : List InterviewerInfo)
    (eventStart eventEnd : Nat) (busy : List BusyInterval) : List InterviewerInfo :=
  ivs.filter (fun iv =>
    (busy.filter (fun b => b.interviewer_id == iv.id)).all
      (fun b => eventEnd ≤ b.start || b.end_ ≤ eventStart))

/-- The per-role assignment loop of `_enrich_schedule_with_shadowers`: walk
the seats that have a trained assignee (in trained-map key order); when the
role pool is non-empty and the seat has no assignee for this role yet,
assign the first pool member and consume it. -/
def assignRolePool : List String → List String → List (String × String) →
    List (String × String)
  | _, [], acc => acc
  | pool, sid :: seats, acc =>
    match pool, acc.find? (fun p => p.1 == sid) with
    | ivh :: ivt, none => assignRolePool ivt seats (acc ++ [(sid, ivh)])
    | _, _ => assignRolePool pool seats acc

/-- The per-event body of `_enrich_schedule_with_shadowers`: compute the
busy-free shadow and reverse-shadow pools for the event's span and run the
assignment loop for both roles (the two pools are disjoint by mode). -/
def enrichEvent (ivs : List InterviewerInfo) (busy : List BusyInterval)
    (ev : Event) : Event :=
  let shadowers := ivs.filter (fun iv =>
    iv.mode == "shadow" || iv.mode == "reverse_shadow")
  let avail := find_available_interviewers shadowers ev.start ev.end_ busy
  let shadowPool := (avail.filter (fun iv => iv.mode == "shadow")).map (fun iv => iv.id)
  let revPool := (avail.filter (fun iv => iv.mode == "reverse_shadow")).map
    (fun iv => iv.id)
  let seats := ev.trained.map (fun p => p.1)
  { ev with
    shadow := assignRolePool shadowPool seats ev.shadow
    reverse_shadow := assignRolePool revPool seats ev.reverse_shadow }

/-- `_enrich_schedule_with_shadowers`: deep-copy the schedule and enrich
each event in place; the returned dict always carries status OPTIMAL and the
single key `schedule1`. -/
def enrich_schedule_with_shadowers (ivs : List InterviewerInfo)
    (busy : List BusyInterval) (sched : FormattedSchedule) : SolveResult :=
  { status := "OPTIMAL"
    schedules := [("schedule1",
      { sched with events := sched.events.map (enrichEvent ivs busy) })] }

/-- The per-stage seat regrouping of `solve_with_two_phase_approach`: group
the stage's `trained`-role `SeatRole`s by `seat_id` (first-occurrence
order), concatenating their pools. -/
def groupTrained (seats : List SeatRole) : List (String × List String) :=
  seats.foldl (fun acc sr =>
    if sr.role == "trained" then
      if acc.any (fun p => p.1 == sr.seat_id) then
        acc.map (fun p =>
          if p.1 == sr.seat_id then (p.1, p.2 ++ sr.interviewers) else p)
      else acc ++ [(sr.seat_id, sr.interviewers)]
    else acc) []

/-- The Phase-1 stage restriction of `solve_with_two_phase_approach`: keep
only one trained `SeatRole` per seat. -/
def tempStagesOf (stages : List Stage) : List Stage :=
  stages.map (fun st =>
    { st with seats := (groupTrained st.seats).map (fun p =>
        { seat_id := p.1, role := "trained", interviewers := p.2 }) })

/-- The enrichment loop of `solve_with_two_phase_approach`: for each
Phase-1 schedule, take the (single) enriched schedule out of the enricher's
return value under the original key, falling back to the original schedule
if the enricher returned none. -/
def enrichOne (ivs : List InterviewerInfo) (busy : List BusyInterval)
    (sched : FormattedSchedule) : FormattedSchedule :=
  match (enrich_schedule_with_shadowers ivs busy sched).schedules with
  | [] => sched
  | (_, enriched) :: _ => enriched

/-- `solve_with_two_phase_approach`: Phase 1 solves the trained-only
restriction (trained-only stages, trained-only interviewer dict and
universe); a Phase-1 status other than OPTIMAL/FEASIBLE, or an empty
Phase-1 schedule dict, yields `{status: INFEASIBLE, schedules: {}}`;
otherwise every Phase-1 schedule is enriched with shadowers and the Phase-1
status is carried to the caller. -/
def solve_with_two_phase_approach (cfg : Config) (ivs : List InterviewerInfo)
    (windows : List Window) (busy : List BusyInterval) (stages : List Stage)
    (oracle : List SolverOutput) : Except SchedError SolveResult :=
  let tempStages := tempStagesOf stages
  let filtered := ivs.filter (fun iv => iv.mode == "trained")
  let filteredIds := (filtered.map (fun iv => iv.id)).insertionSort (fun a b => a ≤ b)
  match scheduler_solve cfg filtered filteredIds (epochOf windows) tempStages oracle with
  | Except.error e => Except.error e
  | Except.ok phase1 =>
    if phase1.status ≠ "OPTIMAL" ∧ phase1.status ≠ "FEASIBLE" then
      Except.ok { status := "INFEASIBLE", schedules := [] }
    else if phase1.schedules.isEmpty then
      Except.ok { status := "INFEASIBLE", schedules := [] }
    else
      Except.ok { status := phase1.status
                  schedules := phase1.schedules.map (fun p =>
                    (p.1, enrichOne ivs busy p.2)) }

/-- Modelled from the spec: the role-name normalization the spec prescribes
for interviewer mode strings ("lowercase, replace whitespace with
underscore; map `"reverse shadow"` and `"reverse_shadow"` to canonical
`reverse_shadow`"), which has no counterpart in the source. -/
def specNormalizeRole (s : String) : String :=
  String.mk (s.data.map (fun c =>
    let lc := c.toLower
    if lc.isWhitespace then '_' else lc))

/-- Whether interviewer `ivid` is assigned to event `ev` in any of the
three roles. -/
def appearsInEvent (ev : Event) (ivid : String) : Bool :=
  ev.trained.any (fun p => p.2 == ivid) ||
  ev.shadow.any (fun p => p.2 == ivid) ||
  ev.reverse_shadow.any (fun p => p.2 == ivid)

/-- The number of events of a schedule in which `ivid` appears in any role. -/
def appearanceCount (events : List Event) (ivid : String) : Nat :=
  events.countP (fun ev => appearsInEvent ev ivid)

/-- The weekly-cap invariant of the spec, as a checker over a response: for
every interviewer record, in every returned schedule, the number of events
the interviewer appears in (any role) plus `current_load` is at most
`weekly_limit`. -/
def weeklyCapOk (res : SolveResult) (ivs : List InterviewerInfo)
    (weeklyLimit : Nat) : Bool :=
  ivs.all (fun iv => res.schedules.all (fun p =>
    appearanceCount p.2.events iv.id + iv.current_load ≤ weeklyLimit))

/-- Supporting lemma: every record in the parsed interviewer dict is one of
the input records. -/
theorem mem_dictUpsert {acc : List InterviewerInfo} {iv x : InterviewerInfo}
    (h : x ∈ dictUpsert acc iv) : x ∈ acc ∨ x = iv := by
  unfold dictUpsert at h
  split at h
  · rcases List.mem_map.mp h with ⟨y, hy, hxy⟩
    by_cases hid : y.id == iv.id
    · rw [if_pos hid] at hxy
      exact Or.inr hxy.symm
    · rw [if_neg hid] at hxy
      exact Or.inl (hxy ▸ hy)
  · rcases List.mem_append.mp h with h1 | h1
    · exact Or.inl h1
    · exact Or.inr (by simpa using h1)

/-- Supporting lemma: members of the fold building the interviewer dict
come from the accumulator or the inputs. -/
theorem mem_foldl_dictUpsert (l : List InterviewerInfo) :
    ∀ (acc : List InterviewerInfo) (x : InterviewerInfo),
      x ∈ l.foldl dictUpsert acc → x ∈ acc ∨ x ∈ l := by
  induction l with
  | nil => intro acc x h; exact Or.inl h
  | cons a t ih =>
    intro acc x h
    rcases ih (dictUpsert acc a) x h with h1 | h1
    · rcases mem_dictUpsert h1 with h2 | h2
      · exact Or.inl h2
      · exact Or.inr (h2 ▸ List.mem_cons_self a t)
    · exact Or.inr (List.mem_cons_of_mem a h1)

/-- Supporting lemma: every record of `parse_interviewers l` is a record of
`l`. -/
theorem mem_parse_interviewers {l : List InterviewerInfo} {x : InterviewerInfo}
    (h : x ∈ parse_interviewers l) : x ∈ l := by
  rcases mem_foldl_dictUpsert l [] x h with h1 | h1
  · cases h1
  · exact h1

/-- Supporting lemma: the parsed interviewer dict of a non-empty input list
is non-empty. -/
theorem parse_interviewers_ne_nil {l : List InterviewerInfo} (h : l ≠ []) :
    parse_interviewers l ≠ [] := by
  have key : ∀ (m : List InterviewerInfo) (acc : List InterviewerInfo),
      acc.length ≤ (m.foldl dictUpsert acc).length := by
    intro m
    induction m with
    | nil => intro acc; simp
    | cons a t ih =>
      intro acc
      refine le_trans ?_ (ih (dictUpsert acc a))
      unfold dictUpsert
      split
      · simp
      · simp
  cases l with
  | nil => exact absurd rfl h
  | cons a t =>
    intro hnil
    have h1 := key t (dictUpsert [] a)
    have h2 : parse_interviewers (a :: t) = t.foldl dictUpsert (dictUpsert [] a) := rfl
    rw [h2] at hnil
    rw [hnil] at h1
    simp [dictUpsert] at h1

/-- C4.  The spec's role-name normalization is absent from the code:
`_parse_interviewers` stores the mode string verbatim and `_parse_stages`
filters candidate pools by exact string equality `interviewer.mode == role`
(despite the docstring "Parse stage definitions with proper role
normalization").  An interviewer whose mode is `"reverse shadow"` therefore
lands in no candidate pool at all: on the one-stage one-seat request below,
the spec's normalization maps `"reverse shadow"` to the canonical
`reverse_shadow`, yet the parsed stage has an empty pool for every role —
in particular the `reverse_shadow` pool is `[]` instead of `["A"]`. -/
theorem C4_role_normalization_missing :
    specNormalizeRole "reverse shadow" = "reverse_shadow" ∧
    parse_stages [⟨"S", 30, false, ["s1"]⟩]
        (parse_interviewers [⟨"A", 0, 0, "reverse shadow"⟩]) =
      [⟨"S", 30, [⟨"s1", "trained", []⟩, ⟨"s1", "shadow", []⟩,
        ⟨"s1", "reverse_shadow", []⟩], false⟩] := by
  constructor
  · decide
  · rfl

/-- C1 counterexample.  On a request whose only interviewer is trained (one
stage, one seat, a valid window, positive duration), the scheduler's
normalization (`__init__` → `_validate_inputs`) raises the EmptyPool error
for the seat's `shadow` pool — even though the seat's `trained` pool is
non-empty — so `solve` is never reached and no OPTIMAL status is produced,
contradicting the claim that EmptyPool is raised only for an empty trained
pool. -/
theorem C1_counterexample :
    scheduler_init {} [⟨"S", 30, false, ["s1"]⟩] [⟨"T", 0, 0, "trained"⟩]
        [⟨540, 1020⟩] [] =
      Except.error (SchedError.emptyPool "s1" "shadow") ∧
    ∀ st ∈ parse_stages [⟨"S", 30, false, ["s1"]⟩]
        (parse_interviewers [⟨"T", 0, 0, "trained"⟩]),
      ∀ sr ∈ st.seats, sr.role = "trained" → sr.interviewers ≠ [] := by
  constructor
  · rfl
  · decide

/-- C1 (amended).  Normalization raises EmptyPool whenever any seat-role
candidate pool is empty, not only a trained pool: on every request with at
least one interviewer, all of them of mode `trained`, at least one stage
whose first stage has a positive duration and at least one seat, and at
least one availability window, `__init__` fails with the EmptyPool error
for the first seat's `shadow` pool, and the solve phase is never reached. -/
theorem C1_trained_only_rejected (cfg : Config) (s0 : StageInput)
    (rest : List StageInput) (sid : String) (srest : List String)
    (ivsIn : List InterviewerInfo) (windows : List Window)
    (busy : List BusyInterval) (hdur : 0 < s0.duration)
    (hseats : s0.seats = sid :: srest) (hivs : ivsIn ≠ [])
    (htrained : ∀ iv ∈ ivsIn, iv.mode = "trained") (hw : windows ≠ []) :
    scheduler_init cfg (s0 :: rest) ivsIn windows busy =
      Except.error (SchedError.emptyPool sid "shadow") := by
  have hptr : ∀ iv ∈ parse_interviewers ivsIn, iv.mode = "trained" :=
    fun iv h => htrained iv (mem_parse_interviewers h)
  have hpne : parse_interviewers ivsIn ≠ [] := parse_interviewers_ne_nil hivs
  have hshadow : (parse_interviewers ivsIn).filter (fun iv => iv.mode == "shadow") = [] := by
    rw [List.filter_eq_nil_iff]
    intro a ha
    simp [hptr a ha]
  obtain ⟨q, qs, hq⟩ := List.exists_cons_of_ne_nil hpne
  have hqmem : q ∈ parse_interviewers ivsIn := hq ▸ List.mem_cons_self _ _
  have htrne : (parse_interviewers ivsIn).filter (fun iv => iv.mode == "trained") ≠ [] := by
    intro hnil
    have hmem : q ∈ (parse_interviewers ivsIn).filter (fun iv => iv.mode == "trained") :=
      List.mem_filter.mpr ⟨hqmem, by simp [hptr q hqmem]⟩
    rw [hnil] at hmem
    cases hmem
  -- the first parsed stage
  have hstage : parse_stages (s0 :: rest) (parse_interviewers ivsIn) =
      { name := s0.stage_name, duration_minutes := s0.duration,
        is_fixed := s0.is_fixed,
        seats := (⟨sid, "trained",
            ((parse_interviewers ivsIn).filter (fun iv => iv.mode == "trained")).map
              (fun iv => iv.id)⟩ : SeatRole) ::
          ⟨sid, "shadow",
            ((parse_interviewers ivsIn).filter (fun iv => iv.mode == "shadow")).map
              (fun iv => iv.id)⟩ ::
          ⟨sid, "reverse_shadow",
            ((parse_interviewers ivsIn).filter (fun iv => iv.mode == "reverse_shadow")).map
              (fun iv => iv.id)⟩ ::
          srest.flatMap (fun seatId => requiredRoles.map (fun role =>
            { seat_id := seatId, role := role,
              interviewers := ((parse_interviewers ivsIn).filter
                (fun iv => iv.mode == role)).map (fun iv => iv.id) })) } ::
        parse_stages rest (parse_interviewers ivsIn) := by
    simp [parse_stages, hseats, requiredRoles]
  have hvs : validateStages (parse_stages (s0 :: rest) (parse_interviewers ivsIn)) =
      Except.error (SchedError.emptyPool sid "shadow") := by
    rw [hstage]
    unfold validateStages
    rw [if_neg (by simpa using Nat.not_le.mpr hdur)]
    rw [if_neg (by simp)]
    have h1 : (((parse_interviewers ivsIn).filter
        (fun iv => iv.mode == "trained")).map (fun iv => iv.id)).isEmpty = false := by
      rw [List.isEmpty_eq_false_iff_exists_mem]
      obtain ⟨y, ys, hy⟩ := List.exists_cons_of_ne_nil htrne
      exact ⟨y.id, by rw [hy]; exact List.mem_map_of_mem _ (List.mem_cons_self _ _)⟩
    simp only [List.findSome?_cons]
    rw [if_neg (by simp [h1]), hshadow]
    simp
  unfold scheduler_init
  rw [if_neg (by simpa using hw)]
  unfold validate_inputs
  rw [if_neg (by simp [parse_stages])]
  rw [hvs]

/-- C1 witness: the amended statement evaluated on the concrete trained-only
request of the counterexample. -/
theorem C1_trained_only_rejected_witness :
    scheduler_init {} [⟨"Tech", 45, false, ["seatA", "seatB"]⟩, ⟨"HM", 30, false, ["seatC"]⟩]
        [⟨"T1", 0, 0, "trained"⟩, ⟨"T2", 1, 2, "trained"⟩] [⟨540, 1020⟩] [] =
      Except.error (SchedError.emptyPool "seatA" "shadow") :=
  C1_trained_only_rejected {} ⟨"Tech", 45, false, ["seatA", "seatB"]⟩ _ "seatA"
    ["seatB"] _ _ _ (by decide) rfl (by decide) (by decide) (by decide)

/-- Supporting lemma: one permutation's collected-solution list has length
at most `max 1 cap` — the callback keeps at most `cap` enumerated solutions,
and when it keeps none the single-shot fallback adds at most one. -/
theorem solve_single_permutation_length {ivs : List InterviewerInfo}
    {allIvs : List String} {epoch : Nat} {perm : List Stage}
    {out : SolverOutput} {cap : Nat} {sols : List (Int × SolData)}
    (h : solve_single_permutation ivs allIvs epoch perm out cap = Except.ok sols) :
    sols.length ≤ max 1 cap := by
  unfold solve_single_permutation at h
  cases hec : emptyPoolCheck perm with
  | error e =>
    rw [hec] at h
    exact absurd h (by simp)
  | ok u =>
    rw [hec] at h
    simp only at h
    split at h
    · split at h
      · cases h
        simp
      · cases h
        simp
    · cases h
      rw [List.length_map]
      exact le_trans (List.length_take_le _ _) (le_max_right _ _)

/-- C2 counterexample.  Two non-fixed stages (P = 2 permutations) and
`top_k_solutions = 4`: the quota passed to the first permutation is the full
`remaining_solutions = K = 4`, so when its enumeration yields four solutions
it contributes all four to the merged list — more than the claimed
`q = max(1, K / P) = 2`. -/
theorem C2_counterexample :
    (generate_stage_permutations
      (parse_stages [⟨"A", 30, false, ["a1"]⟩, ⟨"B", 45, false, ["b1"]⟩]
        (parse_interviewers
          [⟨"T", 0, 0, "trained"⟩, ⟨"Sh", 0, 0, "shadow"⟩,
           ⟨"R", 0, 0, "reverse_shadow"⟩]))).length = 2 ∧
    (Config.top_k_solutions { top_k_solutions := 4 }) = 4 ∧
    (solveContribs { top_k_solutions := 4 }
        (parse_interviewers
          [⟨"T", 0, 0, "trained"⟩, ⟨"Sh", 0, 0, "shadow"⟩,
           ⟨"R", 0, 0, "reverse_shadow"⟩])
        ["R", "Sh", "T"] 540
        ((generate_stage_permutations
          (parse_stages [⟨"A", 30, false, ["a1"]⟩, ⟨"B", 45, false, ["b1"]⟩]
            (parse_interviewers
              [⟨"T", 0, 0, "trained"⟩, ⟨"Sh", 0, 0, "shadow"⟩,
               ⟨"R", 0, 0, "reverse_shadow"⟩]))).zip
          [⟨[⟨[0, 640], [(0, "a1", "trained", "T"), (1, "b1", "trained", "T")]⟩,
             ⟨[15, 655], [(0, "a1", "trained", "T"), (1, "b1", "trained", "T")]⟩,
             ⟨[30, 670], [(0, "a1", "trained", "T"), (1, "b1", "trained", "T")]⟩,
             ⟨[45, 685], [(0, "a1", "trained", "T"), (1, "b1", "trained", "T")]⟩],
            none⟩,
           ⟨[], none⟩]) 0).map (fun cs => cs.map List.length) =
      Except.ok [4, 0] ∧
    ¬(4 ≤ max 1 (4 / 2)) := by
  refine ⟨by decide, rfl, by decide, by decide⟩

/-- C2 (amended).  In one solve call each stage permutation contributes at
most `max(1, K − c)` collected solutions, where K is `top_k_solutions` and
`c` is the number of solutions collected before that permutation — the first
permutation may contribute up to K, and only the final ranking truncates the
merged list to K; the per-permutation quota `max(1, K / P)` of the claim is
not what the loop passes. -/
theorem C2_quota_per_permutation (cfg : Config) (ivs : List InterviewerInfo)
    (allIvs : List String) (epoch : Nat)
    (pairs : List (List Stage × SolverOutput)) (collected : Nat)
    (cs : List (List (Int × SolData)))
    (h : solveContribs cfg ivs allIvs epoch pairs collected = Except.ok cs) :
    ∀ c ∈ cs, c.length ≤ max 1 (cfg.top_k_solutions - collected) := by
  induction pairs generalizing collected cs with
  | nil =>
    unfold solveContribs at h
    cases h
    intro c hc
    cases hc
  | cons p rest ih =>
    unfold solveContribs at h
    split at h
    · cases h
    · rename_i sols hsols
      split at h
      · cases h
      · rename_i more hmore
        cases h
        intro c hc
        rcases List.mem_cons.mp hc with hc1 | hc1
        · exact hc1 ▸ solve_single_permutation_length hsols
        · have h1 := ih (collected + sols.length) more hmore c hc1
          refine le_trans h1 (max_le_max le_rfl ?_)
          omega

/-- C8.  The response of `solve` contains at most `top_k_solutions`
schedules, keyed `schedule1`, `schedule2`, … in rank order, with scores
non-decreasing in rank order (the merged per-permutation solutions are
sorted ascending by score and truncated to K before formatting). -/
theorem C8_ranking_sorted_truncated (cfg : Config) (ivs : List InterviewerInfo)
    (allIvs : List String) (epoch : Nat) (stages : List Stage)
    (oracle : List SolverOutput) (res : SolveResult)
    (h : scheduler_solve cfg ivs allIvs epoch stages oracle = Except.ok res) :
    res.schedules.length ≤ cfg.top_k_solutions ∧
    (∀ i (hi : i < res.schedules.length),
      (res.schedules[i]).1 = "schedule" ++ toString (i + 1)) ∧
    (∀ i (hi : i + 1 < res.schedules.length),
      (res.schedules[i]).2.score ≤ (res.schedules[i + 1]).2.score) := by
  unfold scheduler_solve at h
  simp only at h
  split at h
  · cases h
  · rename_i contribs hcontribs
    split at h
    · cases h
      refine ⟨by simp, ?_, ?_⟩ <;> · intro i hi; simp at hi
    · rename_i hne
      cases h
      have hnotempty :
          ((contribs.flatten.insertionSort scoreLe).take cfg.top_k_solutions).isEmpty = false := by
        simpa using hne
      have hS : (format_top_solutions
          ((contribs.flatten.insertionSort scoreLe).take cfg.top_k_solutions)
          "OPTIMAL").schedules =
          ((contribs.flatten.insertionSort scoreLe).take cfg.top_k_solutions).enum.map
            (fun p => ("schedule" ++ toString (p.1 + 1),
              { score := p.2.1, events := p.2.2.events,
                metrics := metricsOf p.2.2.events })) := by
        unfold format_top_solutions
        rw [hnotempty]
        simp only [Bool.false_eq_true, if_false]
      rw [hS]
      have hsorted : List.Sorted scoreLe
          ((contribs.flatten.insertionSort scoreLe).take cfg.top_k_solutions) :=
        List.Pairwise.sublist (List.take_sublist _ _)
          (List.sorted_insertionSort scoreLe contribs.flatten)
      refine ⟨?_, ?_, ?_⟩
      · rw [List.length_map, List.enum_length]
        exact List.length_take_le _ _
      · intro i hi
        rw [List.length_map, List.enum_length] at hi
        rw [List.getElem_map, List.getElem_enum]
      · intro i hi
        rw [List.length_map, List.enum_length] at hi
        rw [List.getElem_map, List.getElem_map, List.getElem_enum, List.getElem_enum]
        have h1 := List.Sorted.rel_get_of_lt hsorted
          (a := ⟨i, by omega⟩) (b := ⟨i + 1, by omega⟩) (by simp)
        simpa only [List.get_eq_getElem] using h1

/-- C8 witness: the ranking facts evaluated on a concrete solve call whose
single permutation yields two solutions with scores 230 and 130 (reported in
that order by the callback, re-sorted ascending by the ranker). -/
theorem C8_ranking_sorted_truncated_witness :
    ((2 : Nat) ≤ 50) ∧ (("schedule1" : String) = "schedule" ++ toString (0 + 1)) ∧
      ((130 : Int) ≤ 230) := by
  have h := C8_ranking_sorted_truncated {}
    [⟨"T", 0, 0, "trained"⟩, ⟨"U", 0, 1, "trained"⟩] ["T", "U"] 540
    [⟨"S", 30, [⟨"s1", "trained", ["T", "U"]⟩], false⟩]
    [⟨[⟨[0], [(0, "s1", "trained", "U")]⟩, ⟨[0], [(0, "s1", "trained", "T")]⟩],
      none⟩]
    _ rfl
  exact ⟨h.1, h.2.1 0 (by decide), h.2.2 0 (by decide)⟩

/-- Supporting lemma: `solve` either reports INFEASIBLE with no schedules,
or reports OPTIMAL with at least one schedule. -/
theorem scheduler_solve_cases {cfg : Config} {ivs : List InterviewerInfo}
    {allIvs : List String} {epoch : Nat} {stages : List Stage}
    {oracle : List SolverOutput} {res : SolveResult}
    (h : scheduler_solve cfg ivs allIvs epoch stages oracle = Except.ok res) :
    (res.status = "OPTIMAL" ∧ res.schedules ≠ []) ∨
      res = { status := "INFEASIBLE", schedules := [] } := by
  unfold scheduler_solve at h
  simp only at h
  split at h
  · cases h
  · rename_i contribs hcontribs
    split at h
    · cases h
      exact Or.inr rfl
    · rename_i hne
      cases h
      have hnotempty :
          ((contribs.flatten.insertionSort scoreLe).take cfg.top_k_solutions).isEmpty
            = false := by simpa using hne
      left
      unfold format_top_solutions
      rw [hnotempty, if_neg Bool.false_ne_true]
      refine ⟨rfl, ?_⟩
      have hX : (contribs.flatten.insertionSort scoreLe).take cfg.top_k_solutions ≠ [] := by
        intro hx
        rw [hx] at hnotempty
        simp at hnotempty
      simp only [ne_eq, List.map_eq_nil_iff, List.enum_eq_nil]
      exact hX

/-- Supporting lemma: the greedy per-role assignment loop only appends to
the existing role map. -/
theorem assignRolePool_append :
    ∀ (seats : List String) (pool : List String) (acc : List (String × String)),
      ∃ extra, assignRolePool pool seats acc = acc ++ extra := by
  intro seats
  induction seats with
  | nil =>
    intro pool acc
    exact ⟨[], by simp [assignRolePool]⟩
  | cons sid rest ih =>
    intro pool acc
    cases pool with
    | nil =>
      have hstep : assignRolePool [] (sid :: rest) acc = assignRolePool [] rest acc := by
        simp only [assignRolePool]
      rw [hstep]
      exact ih [] acc
    | cons ivh ivt =>
      cases hfind : acc.find? (fun p => p.1 == sid) with
      | none =>
        have hstep : assignRolePool (ivh :: ivt) (sid :: rest) acc =
            assignRolePool ivt rest (acc ++ [(sid, ivh)]) := by
          simp only [assignRolePool]
          rw [hfind]
        rw [hstep]
        rcases ih ivt (acc ++ [(sid, ivh)]) with ⟨ex, hex⟩
        exact ⟨(sid, ivh) :: ex, by rw [hex]; simp⟩
      | some q =>
        have hstep : assignRolePool (ivh :: ivt) (sid :: rest) acc =
            assignRolePool (ivh :: ivt) rest acc := by
          simp only [assignRolePool]
          rw [hfind]
        rw [hstep]
        exact ih (ivh :: ivt) acc

/-- C7.  The Phase-2 enricher is a frame for everything except the shadow
and reverse-shadow maps, and two-phase solve reports the Phase-1 status:
given the Phase-1 result, the two-phase result has the same status, the same
number of schedules under the same keys, and schedule-by-schedule,
event-by-event identical `stage_name`, `duration`, `start`, `end` and
`trained` map, with the shadow and reverse-shadow maps only extended. -/
theorem C7_enricher_frame (cfg : Config) (ivs : List InterviewerInfo)
    (windows : List Window) (busy : List BusyInterval) (stages : List Stage)
    (oracle : List SolverOutput) (res ph1 : SolveResult)
    (h : solve_with_two_phase_approach cfg ivs windows busy stages oracle =
      Except.ok res)
    (h1 : scheduler_solve cfg (ivs.filter (fun iv => iv.mode == "trained"))
      (((ivs.filter (fun iv => iv.mode == "trained")).map
        (fun iv => iv.id)).insertionSort (fun a b => a ≤ b))
      (epochOf windows) (tempStagesOf stages) oracle = Except.ok ph1) :
    res.status = ph1.status ∧
    res.schedules.length = ph1.schedules.length ∧
    ∀ i (hi : i < res.schedules.length) (hipre : i < ph1.schedules.length),
      (res.schedules[i]).1 = (ph1.schedules[i]).1 ∧
      (res.schedules[i]).2.events.length = (ph1.schedules[i]).2.events.length ∧
      ∀ j (hj : j < (res.schedules[i]).2.events.length)
          (hjpre : j < (ph1.schedules[i]).2.events.length),
        ((res.schedules[i]).2.events[j]).stage_name =
          ((ph1.schedules[i]).2.events[j]).stage_name ∧
        ((res.schedules[i]).2.events[j]).duration =
          ((ph1.schedules[i]).2.events[j]).duration ∧
        ((res.schedules[i]).2.events[j]).start =
          ((ph1.schedules[i]).2.events[j]).start ∧
        ((res.schedules[i]).2.events[j]).end_ =
          ((ph1.schedules[i]).2.events[j]).end_ ∧
        ((res.schedules[i]).2.events[j]).trained =
          ((ph1.schedules[i]).2.events[j]).trained ∧
        (∃ ex, ((res.schedules[i]).2.events[j]).shadow =
          ((ph1.schedules[i]).2.events[j]).shadow ++ ex) ∧
        (∃ ex, ((res.schedules[i]).2.events[j]).reverse_shadow =
          ((ph1.schedules[i]).2.events[j]).reverse_shadow ++ ex) := by
  unfold solve_with_two_phase_approach at h
  simp only at h
  rw [h1] at h
  simp only at h
  rcases scheduler_solve_cases h1 with ⟨hstat, hne⟩ | hinf
  · rw [if_neg (by rw [hstat]; simp)] at h
    rw [if_neg (by simpa using hne)] at h
    cases h
    refine ⟨rfl, by simp, ?_⟩
    intro i hi hipre
    have hev : (enrichOne ivs busy (ph1.schedules[i]).2).events =
        (ph1.schedules[i]).2.events.map (enrichEvent ivs busy) := rfl
    simp only [List.getElem_map]
    refine ⟨trivial, ?_, ?_⟩
    · rw [hev]
      simp
    · intro j hj hjpre
      simp only [hev, List.getElem_map]
      refine ⟨rfl, rfl, rfl, rfl, rfl, ?_, ?_⟩
      · exact assignRolePool_append _ _ _
      · exact assignRolePool_append _ _ _
  · rw [hinf] at h
    rw [if_pos (by decide)] at h
    cases h
    rw [hinf]
    refine ⟨rfl, rfl, ?_⟩
    intro i hi
    simp at hi

/-- C7 witness: the frame facts evaluated on a concrete two-phase run (one
stage, one trained interviewer, one shadow and one reverse-shadow observer
added by Phase 2). -/
theorem C7_enricher_frame_witness :
    (("OPTIMAL" : String) = "OPTIMAL") ∧
    (("s1s" : String) = "s1s" ∨
      (∃ ex, ([("s1", "Sh")] : List (String × String)) = [] ++ ex)) := by
  have h := C7_enricher_frame {}
    [⟨"T", 0, 0, "trained"⟩, ⟨"Sh", 0, 0, "shadow"⟩, ⟨"R", 0, 0, "reverse_shadow"⟩]
    [⟨540, 1020⟩] []
    [⟨"S", 30, [⟨"s1", "trained", ["T"]⟩, ⟨"s1", "shadow", ["Sh"]⟩,
      ⟨"s1", "reverse_shadow", ["R"]⟩], false⟩]
    [⟨[⟨[0], [(0, "s1", "trained", "T")]⟩], none⟩]
    _ _ rfl rfl
  have h2 := (h.2.2 0 (by decide) (by decide)).2.2 0 (by decide) (by decide)
  exact ⟨h.1, Or.inr h2.2.2.2.2.2.1⟩

/-- Supporting lemma: every schedule the formatter emits carries the score,
events and computed metrics of one of the solutions it was given. -/
theorem mem_format_top_solutions {sols : List (Int × SolData)}
    {statusName k : String} {sch : FormattedSchedule}
    (hmem : (k, sch) ∈ (format_top_solutions sols statusName).schedules) :
    ∃ i, ∃ hi : i < sols.length,
      k = "schedule" ++ toString (i + 1) ∧
      sch.score = (sols[i]).1 ∧ sch.events = (sols[i]).2.events ∧
      sch.metrics = metricsOf (sols[i]).2.events := by
  unfold format_top_solutions at hmem
  split at hmem
  · cases hmem
  · rcases List.mem_map.mp hmem with ⟨p, hp, heq⟩
    rcases List.mem_iff_get.mp hp with ⟨j, hj⟩
    have hjlt : (j : Nat) < sols.length := lt_of_lt_of_eq j.isLt List.enum_length
    refine ⟨j, hjlt, ?_⟩
    have hget : p = ((j : Nat), sols[(j : Nat)]) := by
      rw [← hj, List.get_eq_getElem, List.getElem_enum]
    injection heq with hk hsch
    rw [hget] at hk hsch
    refine ⟨hk.symm, ?_, ?_, ?_⟩ <;> rw [← hsch]

/-- C9.  For every formatted schedule with a non-empty event list:
`total_span_minutes` is the last event's end minus the first event's start,
`idle_time_minutes` is the span minus the sum of the event durations, and
`efficiency` is the duration sum divided by the span rounded to three
decimals, and `0` when the span is not positive. -/
theorem C9_metrics_formulas (sols : List (Int × SolData)) (statusName k : String)
    (sch : FormattedSchedule) (e0 : Event) (erest : List Event)
    (hmem : (k, sch) ∈ (format_top_solutions sols statusName).schedules)
    (hev : sch.events = e0 :: erest) :
    sch.metrics.total_span_minutes =
      ((sch.events.getLastD e0).end_ : Int) - (e0.start : Int) ∧
    sch.metrics.idle_time_minutes =
      sch.metrics.total_span_minutes -
        (((sch.events.map (fun e => e.duration)).sum : ℕ) : Int) ∧
    sch.metrics.efficiency =
      (if 0 < sch.metrics.total_span_minutes then
        round3 ((((sch.events.map (fun e => e.duration)).sum : ℕ) : ℚ) /
          ((sch.metrics.total_span_minutes : Int) : ℚ))
      else 0) := by
  rcases mem_format_top_solutions hmem with ⟨i, hi, _, _, hevents, hmetrics⟩
  rw [← hevents] at hmetrics
  rw [hmetrics, hev]
  exact ⟨rfl, rfl, rfl⟩

/-- The two-event schedule used to evaluate the metric formulas
(540–570 and 690–735: span 195, idle 120). -/
def c9evs : List Event :=
  [⟨"A", 30, 540, 570, [("a1", "T")], [], []⟩,
   ⟨"B", 45, 690, 735, [("b1", "T")], [], []⟩]

/-- C9 witness: the metric formulas evaluated on a concrete formatted
solution. -/
theorem C9_metrics_formulas_witness :
    (metricsOf c9evs).total_span_minutes =
      ((c9evs.getLastD ⟨"A", 30, 540, 570, [("a1", "T")], [], []⟩).end_ : Int) - ((540 : Nat) : Int) ∧
    (metricsOf c9evs).idle_time_minutes =
      (metricsOf c9evs).total_span_minutes - (((c9evs.map (fun e => e.duration)).sum : ℕ) : Int) ∧
    (metricsOf c9evs).efficiency =
      (if 0 < (metricsOf c9evs).total_span_minutes then
        round3 ((((c9evs.map (fun e => e.duration)).sum : ℕ) : ℚ) /
          (((metricsOf c9evs).total_span_minutes : Int) : ℚ))
      else 0) :=
  C9_metrics_formulas [(230, ⟨c9evs⟩)] "OPTIMAL" "schedule1"
    ⟨230, c9evs, metricsOf c9evs⟩
    ⟨"A", 30, 540, 570, [("a1", "T")], [], []⟩
    [⟨"B", 45, 690, 735, [("b1", "T")], [], []⟩]
    (List.Mem.head _) rfl

/-- C2 witness: the amended bound evaluated on a concrete two-permutation
instance (the second permutation's contribution is empty, within
`max(1, 4 − 0)`). -/
theorem C2_quota_per_permutation_witness :
    ([] : List (Int × SolData)).length ≤ max 1 ((4 : Nat) - 0) :=
  C2_quota_per_permutation { top_k_solutions := 4 } [] [] 0
    [(⟨[⟨"X", 30, [⟨"x1", "trained", ["T"]⟩], false⟩], ⟨[⟨[0], []⟩], none⟩⟩ :
        List Stage × SolverOutput),
     ⟨[⟨"X", 30, [⟨"x1", "trained", ["T"]⟩], false⟩], ⟨[], none⟩⟩] 0
    _ rfl [] (by decide)


/-- Soundness of the external CP-SAT solver for one solve call: every
solution it reports for a permutation (through the enumeration callback or
the single-shot fallback) satisfies the constraint model built for that
permutation. -/
def OracleSound (cfg : Config) (ivs : List InterviewerInfo) (allIvs : List String)
    (windows : List Window) (busy : List BusyInterval) (epoch : Nat)
    (stages : List Stage) (oracle : List SolverOutput) : Prop :=
  ∀ p ∈ (generate_stage_permutations stages).zip oracle,
    ∀ sol : RawSolution, (sol ∈ p.2.enumerated ∨ p.2.fallback = some sol) →
      modelSat cfg ivs allIvs windows busy epoch p.1 sol = true

/-- Supporting lemma: every solution one permutation's collection returns
comes from the solver's reports for that permutation and is the extraction
of that reported solution. -/
theorem mem_solve_single_permutation {ivs : List InterviewerInfo}
    {allIvs : List String} {epoch : Nat} {perm : List Stage}
    {out : SolverOutput} {cap : Nat} {sols : List (Int × SolData)}
    {q : Int × SolData}
    (h : solve_single_permutation ivs allIvs epoch perm out cap = Except.ok sols)
    (hq : q ∈ sols) :
    ∃ sol : RawSolution, (sol ∈ out.enumerated ∨ out.fallback = some sol) ∧
      q.2 = extractSolData epoch perm sol := by
  unfold solve_single_permutation at h
  cases hec : emptyPoolCheck perm with
  | error e =>
    rw [hec] at h
    exact absurd h (by simp)
  | ok u =>
    rw [hec] at h
    simp only at h
    split at h
    · split at h
      · rename_i sol hfb
        cases h
        rcases List.mem_singleton.mp hq with rfl
        exact ⟨sol, Or.inr hfb, rfl⟩
      · cases h
        cases hq
    · cases h
      rcases List.mem_map.mp hq with ⟨sol, hsol, rfl⟩
      exact ⟨sol, Or.inl (List.take_subset _ _ hsol), rfl⟩

/-- Supporting lemma: every contribution list of the permutation loop is
the collection of some (permutation, solver output) pair of the loop's
input, under some cap. -/
theorem mem_solveContribs {cfg : Config} {ivs : List InterviewerInfo}
    {allIvs : List String} {epoch : Nat}
    {pairs : List (List Stage × SolverOutput)} {collected : Nat}
    {cs : List (List (Int × SolData))} {c : List (Int × SolData)}
    (h : solveContribs cfg ivs allIvs epoch pairs collected = Except.ok cs)
    (hc : c ∈ cs) :
    ∃ pr ∈ pairs, ∃ cap,
      solve_single_permutation ivs allIvs epoch pr.1 pr.2 cap = Except.ok c := by
  induction pairs generalizing collected cs with
  | nil =>
    unfold solveContribs at h
    cases h
    cases hc
  | cons p rest ih =>
    unfold solveContribs at h
    split at h
    · cases h
    · rename_i sols hsols
      split at h
      · cases h
      · rename_i more hmore
        cases h
        rcases List.mem_cons.mp hc with rfl | hc1
        · exact ⟨p, List.mem_cons_self _ _, _, hsols⟩
        · rcases ih hmore hc1 with ⟨pr, hpr, cap, hcap⟩
          exact ⟨pr, List.mem_cons_of_mem _ hpr, cap, hcap⟩

/-- Supporting lemma: every schedule in a successful `solve` response is
(the formatting of) the extraction of a solver-reported solution for one of
the stage permutations. -/
theorem mem_scheduler_solve {cfg : Config} {ivs : List InterviewerInfo}
    {allIvs : List String} {epoch : Nat} {stages : List Stage}
    {oracle : List SolverOutput} {res : SolveResult} {k : String}
    {sch : FormattedSchedule}
    (h : scheduler_solve cfg ivs allIvs epoch stages oracle = Except.ok res)
    (hmem : (k, sch) ∈ res.schedules) :
    ∃ perm out sol,
      (perm, out) ∈ (generate_stage_permutations stages).zip oracle ∧
      (sol ∈ out.enumerated ∨ out.fallback = some sol) ∧
      sch.events = (extractSolData epoch perm sol).events := by
  unfold scheduler_solve at h
  simp only at h
  split at h
  · cases h
  · rename_i contribs hcontribs
    split at h
    · cases h
      cases hmem
    · cases h
      rcases mem_format_top_solutions hmem with ⟨i, hi, _, _, hevents, _⟩
      have hqmem : ((contribs.flatten.insertionSort scoreLe).take cfg.top_k_solutions)[i]
          ∈ contribs.flatten := by
        have h1 := List.getElem_mem hi
        have h2 := List.take_subset cfg.top_k_solutions
          (contribs.flatten.insertionSort scoreLe) h1
        exact (List.Perm.mem_iff (List.perm_insertionSort scoreLe contribs.flatten)).mp h2
      rcases List.mem_flatten.mp hqmem with ⟨c, hcmem, hqc⟩
      rcases mem_solveContribs hcontribs hcmem with ⟨pr, hpr, cap, hcap⟩
      rcases mem_solve_single_permutation hcap hqc with ⟨sol, hsol, hq2⟩
      exact ⟨pr.1, pr.2, sol, hpr, hsol, by rw [hevents, hq2]⟩

/-- Supporting lemma: unpacking the constraint model predicate into the
individual constraint families used by the invariant proofs (the seat
coverage and at-most-one-role families are part of `modelSat` but not
needed by any claim below). -/
theorem modelSat_destruct {cfg : Config} {ivs : List InterviewerInfo}
    {allIvs : List String} {windows : List Window} {busy : List BusyInterval}
    {epoch : Nat} {perm : List Stage} {sol : RawSolution}
    (hms : modelSat cfg ivs allIvs windows busy epoch perm sol = true) :
    (sol.starts.length = perm.length) ∧
    (∀ i, i + 1 < perm.length →
      sol.starts.getD i 0 + (perm.getD i default).duration_minutes + gapG cfg ≤
        sol.starts.getD (i + 1) 0) ∧
    (∀ i, i < perm.length → ∃ w ∈ windows,
      w.start ≤ epoch + sol.starts.getD i 0 ∧
      epoch + sol.starts.getD i 0 + (perm.getD i default).duration_minutes ≤ w.end_) ∧
    ((cfg.require_distinct_days || !cfg.schedule_on_same_day) = true →
      ∀ i j, i < j → j < perm.length →
        sol.starts.getD i 0 + 1440 ≤ sol.starts.getD j 0 ∨
        sol.starts.getD j 0 + 1440 ≤ sol.starts.getD i 0) ∧
    (∀ e ∈ sol.assigns, e.1 < perm.length) ∧
    (∀ i, i < perm.length → ∀ b ∈ busy, usedB sol i b.interviewer_id = true →
      epoch + sol.starts.getD i 0 + (perm.getD i default).duration_minutes ≤ b.start ∨
      b.end_ ≤ epoch + sol.starts.getD i 0) ∧
    (∀ ivid ∈ allIvs, ∀ info, ivs.find? (fun r => r.id == ivid) = some info →
      ((List.range perm.length).countP (fun i => usedB sol i ivid)) +
        info.current_load ≤ cfg.weekly_limit) := by
  unfold modelSat at hms
  simp only [Bool.and_eq_true, List.all_eq_true, List.mem_range, beq_iff_eq,
    Bool.or_eq_true, List.any_eq_true, decide_eq_true_eq, Bool.not_eq_true'] at hms
  obtain ⟨⟨⟨⟨⟨⟨⟨⟨⟨hlen, hgrid⟩, hgap⟩, hwin⟩, hdays⟩, hvalid⟩, hcover⟩, honce⟩,
    hbusy⟩, hweekly⟩ := hms
  refine ⟨hlen, ?_, ?_, ?_, ?_, ?_, ?_⟩
  · intro i hi
    have h1 := hgap i (by omega)
    omega
  · intro i hi
    rcases hwin i hi with ⟨w, hw, h1, h2⟩
    exact ⟨w, hw, h1, h2⟩
  · intro hg i j hij hj
    rcases hdays with hfalse | hbody
    · have h3 : ¬((cfg.require_distinct_days || !cfg.schedule_on_same_day) = true) := by
        simpa using hfalse
      exact absurd hg h3
    · have h1 := hbody i (by omega) j hj
      rcases h1 with h2 | h2
      · have h3 : ¬(i < j) := by simpa using h2
        exact absurd hij h3
      · exact h2
  · intro e he
    exact (hvalid e he).1
  · intro i hi b hb hused
    rcases hbusy i hi b hb with h1 | h1
    · rw [hused] at h1
      cases h1
    · exact h1
  · intro ivid hivid info hinfo
    have h1 := hweekly ivid hivid
    rw [hinfo] at h1
    simpa using h1

/-- Supporting lemma: the i-th extracted event of a solution. -/
theorem extract_event_fields {epoch : Nat} {perm : List Stage} {sol : RawSolution}
    {i : Nat} (hi : i < (extractSolData epoch perm sol).events.length) :
    (extractSolData epoch perm sol).events[i] =
      { stage_name := (perm.getD i default).name
        duration := (perm.getD i default).duration_minutes
        start := epoch + sol.starts.getD i 0
        end_ := epoch + sol.starts.getD i 0 + (perm.getD i default).duration_minutes
        trained := roleMapOf sol.assigns i (perm.getD i default) "trained"
        shadow := roleMapOf sol.assigns i (perm.getD i default) "shadow"
        reverse_shadow := roleMapOf sol.assigns i (perm.getD i default) "reverse_shadow" } := by
  have hi2 : i < perm.length := by
    simpa [extractSolData] using hi
  simp [extractSolData]

/-- Supporting lemma: the extraction produces one event per stage. -/
theorem extract_events_length {epoch : Nat} {perm : List Stage} {sol : RawSolution} :
    (extractSolData epoch perm sol).events.length = perm.length := by
  simp [extractSolData]

/-- C6.  In every returned schedule, consecutive events are separated by
the minimum gap: `events[i+1].start ≥ events[i].end + G`, where
`G = gapG cfg` is `max(120, min_gap_between_stages)` minutes when
`schedule_on_same_day` and `max(1440, min_gap_between_stages)` minutes
otherwise — assuming the external solver only reports solutions of the
built model. -/
theorem C6_consecutive_min_gap (cfg : Config) (ivs : List InterviewerInfo)
    (allIvs : List String) (windows : List Window) (busy : List BusyInterval)
    (epoch : Nat) (stages : List Stage) (oracle : List SolverOutput)
    (res : SolveResult) (k : String) (sch : FormattedSchedule) (i : Nat)
    (hsound : OracleSound cfg ivs allIvs windows busy epoch stages oracle)
    (h : scheduler_solve cfg ivs allIvs epoch stages oracle = Except.ok res)
    (hmem : (k, sch) ∈ res.schedules)
    (hi : i + 1 < sch.events.length) :
    (sch.events[i]).end_ + gapG cfg ≤ (sch.events[i + 1]).start := by
  rcases mem_scheduler_solve h hmem with ⟨perm, out, sol, hpair, hsol, hevents⟩
  have hms := hsound (perm, out) hpair sol hsol
  obtain ⟨hlen, hgap, _⟩ := modelSat_destruct hms
  have hlen2 : sch.events.length = perm.length := by
    rw [hevents]
    exact extract_events_length
  have hi2 : i + 1 < perm.length := by omega
  have hgap1 : sol.starts.getD i 0 + (perm.getD i default).duration_minutes + gapG cfg ≤
      sol.starts.getD (i + 1) 0 := hgap i hi2
  have hib1 : i < (extractSolData epoch perm sol).events.length := by
    rw [extract_events_length]
    omega
  have hib2 : i + 1 < (extractSolData epoch perm sol).events.length := by
    rw [extract_events_length]
    omega
  have hv1 : sch.events[i] = (extractSolData epoch perm sol).events[i] := by
    simp only [hevents]
  have hv2 : sch.events[i + 1] = (extractSolData epoch perm sol).events[i + 1] := by
    simp only [hevents]
  rw [hv1, hv2, extract_event_fields hib1, extract_event_fields hib2]
  simp only []
  omega

/-- The two-stage instance used to evaluate the gap invariant (default
config: same-day scheduling, gap `max(120, 0) = 120`). -/
def c6stages : List Stage :=
  [⟨"A", 30, [⟨"a1", "trained", ["T"]⟩], false⟩,
   ⟨"B", 45, [⟨"b1", "trained", ["T"]⟩], false⟩]

/-- A model solution for the identity permutation of `c6stages`: starts 0
and 150 minutes past the epoch (events 540–570 and 690–735 absolute). -/
def c6sol : RawSolution :=
  ⟨[0, 150], [(0, "a1", "trained", "T"), (1, "b1", "trained", "T")]⟩

/-- Solver reports for the two permutations of `c6stages`: the identity
permutation yields `c6sol`, the swapped one reports nothing. -/
def c6oracle : List SolverOutput := [⟨[c6sol], none⟩, ⟨[], none⟩]

/-- C6 witness: the gap invariant evaluated on the concrete two-stage solve
(event A ends at 570, event B starts at 690 = 570 + gap 120). -/
theorem C6_consecutive_min_gap_witness :
    (570 : Nat) + gapG {} ≤ 690 := by
  have hres : scheduler_solve {} [⟨"T", 0, 0, "trained"⟩] ["T"] 540 c6stages c6oracle =
      Except.ok (format_top_solutions
        [(objectiveValue [⟨"T", 0, 0, "trained"⟩] ["T"] c6stages c6sol,
          extractSolData 540 c6stages c6sol)] "OPTIMAL") := rfl
  refine C6_consecutive_min_gap {} [⟨"T", 0, 0, "trained"⟩] ["T"] [⟨540, 1020⟩] []
    540 c6stages c6oracle _ ("schedule" ++ toString (0 + 1))
    ⟨objectiveValue [⟨"T", 0, 0, "trained"⟩] ["T"] c6stages c6sol,
     (extractSolData 540 c6stages c6sol).events,
     metricsOf (extractSolData 540 c6stages c6sol).events⟩ 0
    ?_ hres ?_ (by decide)
  · intro p hp sol hsol
    have hzip : (generate_stage_permutations c6stages).zip c6oracle =
        [([⟨"A", 30, [⟨"a1", "trained", ["T"]⟩], false⟩,
           ⟨"B", 45, [⟨"b1", "trained", ["T"]⟩], false⟩], ⟨[c6sol], none⟩),
         ([⟨"B", 45, [⟨"b1", "trained", ["T"]⟩], false⟩,
           ⟨"A", 30, [⟨"a1", "trained", ["T"]⟩], false⟩], ⟨[], none⟩)] := by decide
    rw [hzip] at hp
    simp only [List.mem_cons, List.not_mem_nil, or_false] at hp
    rcases hp with rfl | rfl
    · rcases hsol with hsol | hsol
      · rcases List.mem_singleton.mp hsol with rfl
        decide
      · cases hsol
    · rcases hsol with hsol | hsol
      · cases hsol
      · cases hsol
  · exact List.Mem.head _

/-- Supporting lemma: anything the greedy per-role loop assigns is either a
pre-existing entry of the role map or an interviewer drawn from the pool. -/
theorem assignRolePool_mem :
    ∀ (seats : List String) (pool : List String) (acc : List (String × String))
      (q : String × String), q ∈ assignRolePool pool seats acc →
      q ∈ acc ∨ q.2 ∈ pool := by
  intro seats
  induction seats with
  | nil =>
    intro pool acc q hq
    rw [show assignRolePool pool [] acc = acc from rfl] at hq
    exact Or.inl hq
  | cons sid rest ih =>
    intro pool acc q hq
    cases pool with
    | nil =>
      have hstep : assignRolePool [] (sid :: rest) acc = assignRolePool [] rest acc := by
        simp only [assignRolePool]
      rw [hstep] at hq
      exact ih [] acc q hq
    | cons ivh ivt =>
      cases hfind : acc.find? (fun p => p.1 == sid) with
      | none =>
        have hstep : assignRolePool (ivh :: ivt) (sid :: rest) acc =
            assignRolePool ivt rest (acc ++ [(sid, ivh)]) := by
          simp only [assignRolePool]
          rw [hfind]
        rw [hstep] at hq
        rcases ih ivt (acc ++ [(sid, ivh)]) q hq with h1 | h1
        · rcases List.mem_append.mp h1 with h2 | h2
          · exact Or.inl h2
          · rcases List.mem_singleton.mp h2 with rfl
            exact Or.inr (List.mem_cons_self _ _)
        · exact Or.inr (List.mem_cons_of_mem _ h1)
      | some w =>
        have hstep : assignRolePool (ivh :: ivt) (sid :: rest) acc =
            assignRolePool (ivh :: ivt) rest acc := by
          simp only [assignRolePool]
          rw [hfind]
        rw [hstep] at hq
        exact ih (ivh :: ivt) acc q hq

/-- Supporting lemma: a seat assignment in an extracted per-role map means
the corresponding assignment variable is true, so the interviewer is `used`
in that stage. -/
theorem roleMapOf_used {assigns : List (Nat × String × String × String)}
    {i : Nat} {st : Stage} {role sid ivid : String}
    (hmem : (sid, ivid) ∈ roleMapOf assigns i st role) :
    assigns.any (fun e => e.1 == i && e.2.2.2 == ivid) = true := by
  unfold roleMapOf at hmem
  rcases List.mem_filterMap.mp hmem with ⟨sid2, _, hfind⟩
  rcases Option.map_eq_some'.mp hfind with ⟨e, hfe, heq⟩
  have hemem := List.mem_of_find?_eq_some hfe
  have hpred := List.find?_some hfe
  simp only [Bool.and_eq_true, beq_iff_eq] at hpred
  rw [List.any_eq_true]
  refine ⟨e, hemem, ?_⟩
  simp only [Bool.and_eq_true, beq_iff_eq]
  injection heq with h1 h2
  exact ⟨hpred.1.1, h2⟩

/-- Supporting lemma: an interviewer kept by `_find_available_interviewers`
has no busy interval overlapping the event span. -/
theorem find_available_no_overlap {ivs : List InterviewerInfo}
    {es ee : Nat} {busy : List BusyInterval} {iv : InterviewerInfo}
    {b : BusyInterval}
    (hmem : iv ∈ find_available_interviewers ivs es ee busy)
    (hb : b ∈ busy) (hbid : b.interviewer_id = iv.id) :
    ee ≤ b.start ∨ b.end_ ≤ es := by
  unfold find_available_interviewers at hmem
  have hall := (List.mem_filter.mp hmem).2
  rw [List.all_eq_true] at hall
  have hbmem : b ∈ busy.filter (fun x => x.interviewer_id == iv.id) :=
    List.mem_filter.mpr ⟨hb, by simp [hbid]⟩
  have h1 := hall b hbmem
  simpa using h1

/-- Supporting lemma: every schedule of a successful two-phase solve is the
enrichment of a Phase-1 schedule. -/
theorem mem_two_phase_schedules {cfg : Config} {ivs : List InterviewerInfo}
    {windows : List Window} {busy : List BusyInterval} {stages : List Stage}
    {oracle : List SolverOutput} {res : SolveResult} {k : String}
    {sch : FormattedSchedule}
    (h : solve_with_two_phase_approach cfg ivs windows busy stages oracle =
      Except.ok res)
    (hmem : (k, sch) ∈ res.schedules) :
    ∃ ph1 p, scheduler_solve cfg (ivs.filter (fun iv => iv.mode == "trained"))
        (((ivs.filter (fun iv => iv.mode == "trained")).map
          (fun iv => iv.id)).insertionSort (fun a b => a ≤ b))
        (epochOf windows) (tempStagesOf stages) oracle = Except.ok ph1 ∧
      p ∈ ph1.schedules ∧ k = p.1 ∧ sch = enrichOne ivs busy p.2 := by
  unfold solve_with_two_phase_approach at h
  simp only at h
  split at h
  · cases h
  · rename_i ph1 hph1
    split at h
    · cases h
      cases hmem
    · split at h
      · cases h
        cases hmem
      · cases h
        rcases List.mem_map.mp hmem with ⟨p, hp, heq⟩
        injection heq with h1 h2
        exact ⟨ph1, p, hph1, hp, h1.symm, h2.symm⟩

/-- C5.  Busy-interval disjointness for every returned schedule of the
two-phase solve: an interviewer assigned to an event in any role (trained by
Phase 1, shadow or reverse-shadow by Phase 2) has no busy interval
overlapping the event span `[start, end)` — overlap being
`¬(end ≤ busy.start ∨ busy.end ≤ start)` — assuming the external solver only
reports solutions of the built Phase-1 model. -/
theorem C5_busy_disjointness (cfg : Config) (ivs : List InterviewerInfo)
    (windows : List Window) (busy : List BusyInterval) (stages : List Stage)
    (oracle : List SolverOutput) (res : SolveResult) (k : String)
    (sch : FormattedSchedule) (ev : Event) (sid ivid : String) (b : BusyInterval)
    (hsound : OracleSound cfg (ivs.filter (fun iv => iv.mode == "trained"))
      (((ivs.filter (fun iv => iv.mode == "trained")).map
        (fun iv => iv.id)).insertionSort (fun a b => a ≤ b))
      windows busy (epochOf windows) (tempStagesOf stages) oracle)
    (h : solve_with_two_phase_approach cfg ivs windows busy stages oracle =
      Except.ok res)
    (hmem : (k, sch) ∈ res.schedules) (hev : ev ∈ sch.events)
    (hrole : (sid, ivid) ∈ ev.trained ∨ (sid, ivid) ∈ ev.shadow ∨
      (sid, ivid) ∈ ev.reverse_shadow)
    (hb : b ∈ busy) (hbid : b.interviewer_id = ivid) :
    ev.end_ ≤ b.start ∨ b.end_ ≤ ev.start := by
  rcases mem_two_phase_schedules h hmem with ⟨ph1, p, hph1, hp, hkp, hsch⟩
  subst hsch
  have hevs : (enrichOne ivs busy p.2).events = p.2.events.map (enrichEvent ivs busy) :=
    rfl
  rw [hevs] at hev
  rcases List.mem_map.mp hev with ⟨ev0, hev0, rfl⟩
  have hp2 : (p.1, p.2) ∈ ph1.schedules := by simpa using hp
  rcases mem_scheduler_solve hph1 hp2 with ⟨perm, out, sol, hpair, hsolm, hevents⟩
  have hms := hsound (perm, out) hpair sol hsolm
  obtain ⟨_, _, _, _, _, hbusy, _⟩ := modelSat_destruct hms
  rw [hevents] at hev0
  rcases List.mem_iff_getElem.mp hev0 with ⟨i, hilt, hieq⟩
  have hilt2 : i < perm.length := by
    rw [extract_events_length] at hilt
    exact hilt
  rw [extract_event_fields hilt] at hieq
  subst hieq
  rcases hrole with hr | hr | hr
  · have hused : usedB sol i ivid = true := roleMapOf_used hr
    have h1 := hbusy i hilt2 b hb (by rw [hbid]; exact hused)
    exact h1
  · rcases assignRolePool_mem _ _ _ _ hr with h1 | h1
    · have hused : usedB sol i ivid = true := roleMapOf_used h1
      have h2 := hbusy i hilt2 b hb (by rw [hbid]; exact hused)
      exact h2
    · rcases List.mem_map.mp h1 with ⟨iv, hivmem, hivid⟩
      have hav : iv ∈ find_available_interviewers
          (ivs.filter (fun x => x.mode == "shadow" || x.mode == "reverse_shadow"))
          (epochOf windows + sol.starts.getD i 0)
          (epochOf windows + sol.starts.getD i 0 +
            (perm.getD i default).duration_minutes) busy :=
        List.mem_filter.mp hivmem |>.1
      exact find_available_no_overlap hav hb (by rw [hbid, hivid])
  · rcases assignRolePool_mem _ _ _ _ hr with h1 | h1
    · have hused : usedB sol i ivid = true := roleMapOf_used h1
      have h2 := hbusy i hilt2 b hb (by rw [hbid]; exact hused)
      exact h2
    · rcases List.mem_map.mp h1 with ⟨iv, hivmem, hivid⟩
      have hav : iv ∈ find_available_interviewers
          (ivs.filter (fun x => x.mode == "shadow" || x.mode == "reverse_shadow"))
          (epochOf windows + sol.starts.getD i 0)
          (epochOf windows + sol.starts.getD i 0 +
            (perm.getD i default).duration_minutes) busy :=
        List.mem_filter.mp hivmem |>.1
      exact find_available_no_overlap hav hb (by rw [hbid, hivid])

/-- Interviewers of the busy-disjointness witness scenario: one trained
lead, one shadow (busy 600–660), one reverse-shadow. -/
def c5ivs : List InterviewerInfo :=
  [⟨"T", 0, 0, "trained"⟩, ⟨"Sh", 0, 0, "shadow"⟩, ⟨"R", 0, 0, "reverse_shadow"⟩]

/-- Stage list of the busy-disjointness witness scenario. -/
def c5stages : List Stage :=
  [⟨"S", 30, [⟨"s1", "trained", ["T"]⟩, ⟨"s1", "shadow", ["Sh"]⟩,
    ⟨"s1", "reverse_shadow", ["R"]⟩], false⟩]

/-- Busy intervals of the witness scenario: the shadow interviewer is busy
600–660, after the 540–570 event. -/
def c5busy : List BusyInterval := [⟨"Sh", 600, 660⟩]

/-- The Phase-1 model solution of the witness scenario. -/
def c5sol : RawSolution := ⟨[0], [(0, "s1", "trained", "T")]⟩

/-- Solver reports of the witness scenario. -/
def c5oracle : List SolverOutput := [⟨[c5sol], none⟩]

/-- The Phase-1 formatted schedule of the witness scenario. -/
def c5phase1sched : FormattedSchedule :=
  ⟨objectiveValue (c5ivs.filter (fun iv => iv.mode == "trained")) ["T"]
      (tempStagesOf c5stages) c5sol,
   (extractSolData 540 (tempStagesOf c5stages) c5sol).events,
   metricsOf (extractSolData 540 (tempStagesOf c5stages) c5sol).events⟩

/-- C5 witness: busy-interval disjointness evaluated on the concrete
two-phase run — the shadow assignee's busy interval 600–660 does not overlap
the 540–570 event. -/
theorem C5_busy_disjointness_witness :
    (570 : Nat) ≤ 600 ∨ (660 : Nat) ≤ 540 := by
  have hres : solve_with_two_phase_approach {} c5ivs [⟨540, 1020⟩] c5busy c5stages
      c5oracle = Except.ok ⟨"OPTIMAL",
        [("schedule" ++ toString (0 + 1), enrichOne c5ivs c5busy c5phase1sched)]⟩ :=
    rfl
  refine C5_busy_disjointness {} c5ivs [⟨540, 1020⟩] c5busy c5stages c5oracle
    ⟨"OPTIMAL", [("schedule" ++ toString (0 + 1), enrichOne c5ivs c5busy c5phase1sched)]⟩
    ("schedule" ++ toString (0 + 1)) (enrichOne c5ivs c5busy c5phase1sched)
    ⟨"S", 30, 540, 570, [("s1", "T")], [("s1", "Sh")], [("s1", "R")]⟩
    "s1" "Sh" ⟨"Sh", 600, 660⟩
    ?_ hres (List.Mem.head _) (by decide)
    (Or.inr (Or.inl (by decide))) (by decide) rfl
  intro p hp sol hsol
  have hzip : (generate_stage_permutations (tempStagesOf c5stages)).zip c5oracle =
      [([⟨"S", 30, [⟨"s1", "trained", ["T"]⟩], false⟩], ⟨[c5sol], none⟩)] := by decide
  rw [hzip] at hp
  simp only [List.mem_cons, List.not_mem_nil, or_false] at hp
  subst hp
  rcases hsol with hsol | hsol
  · rcases List.mem_singleton.mp hsol with rfl
    decide
  · cases hsol

/-- Interviewers of the weekly-cap counterexample: the shadow interviewer
already carries `current_load = 5` with `weekly_limit = 5`. -/
def c3ivs : List InterviewerInfo :=
  [⟨"T", 0, 0, "trained"⟩, ⟨"Sh", 5, 0, "shadow"⟩, ⟨"R", 0, 0, "reverse_shadow"⟩]

/-- Stage list of the weekly-cap counterexample. -/
def c3stages : List Stage :=
  [⟨"S", 30, [⟨"s1", "trained", ["T"]⟩, ⟨"s1", "shadow", ["Sh"]⟩,
    ⟨"s1", "reverse_shadow", ["R"]⟩], false⟩]

/-- Solver reports of the weekly-cap counterexample. -/
def c3oracle : List SolverOutput := [⟨[⟨[0], [(0, "s1", "trained", "T")]⟩], none⟩]

/-- C3 counterexample.  Phase 2 assigns shadow and reverse-shadow observers
with no weekly-limit check: on this request the enricher assigns the shadow
interviewer `Sh` (current_load 5, weekly_limit 5) to one event, so
`Sh` appears in 1 event and `1 + 5 > 5` — the returned response violates the
claimed cap for every interviewer in any role (`weeklyCapOk` is false). -/
theorem C3_counterexample :
    (solve_with_two_phase_approach {} c3ivs [⟨540, 1020⟩] [] c3stages c3oracle).map
      (fun r => weeklyCapOk r c3ivs (Config.weekly_limit {})) = Except.ok false ∧
    ¬((1 : Nat) + 5 ≤ Config.weekly_limit {}) := by
  constructor
  · decide
  · decide

/-- C3 (amended).  The weekly cap does hold for the trained role: in every
schedule of a successful two-phase solve, every trained-mode interviewer
appears as the trained assignee in at most `weekly_limit − current_load`
events, i.e. trained appearances + current_load ≤ weekly_limit — assuming
the external solver only reports solutions of the built Phase-1 model.
Phase-2 shadow and reverse-shadow assignments are exempt from the cap (see
the counterexample). -/
theorem C3_weekly_cap_trained (cfg : Config) (ivs : List InterviewerInfo)
    (windows : List Window) (busy : List BusyInterval) (stages : List Stage)
    (oracle : List SolverOutput) (res : SolveResult) (k : String)
    (sch : FormattedSchedule) (ivid : String) (info : InterviewerInfo)
    (hsound : OracleSound cfg (ivs.filter (fun iv => iv.mode == "trained"))
      (((ivs.filter (fun iv => iv.mode == "trained")).map
        (fun iv => iv.id)).insertionSort (fun a b => a ≤ b))
      windows busy (epochOf windows) (tempStagesOf stages) oracle)
    (h : solve_with_two_phase_approach cfg ivs windows busy stages oracle =
      Except.ok res)
    (hmem : (k, sch) ∈ res.schedules)
    (hfind : (ivs.filter (fun iv => iv.mode == "trained")).find?
      (fun r => r.id == ivid) = some info) :
    sch.events.countP (fun ev => ev.trained.any (fun q => q.2 == ivid)) +
      info.current_load ≤ cfg.weekly_limit := by
  rcases mem_two_phase_schedules h hmem with ⟨ph1, p, hph1, hp, hkp, hsch⟩
  subst hsch
  have hevs : (enrichOne ivs busy p.2).events = p.2.events.map (enrichEvent ivs busy) :=
    rfl
  rw [hevs, List.countP_map]
  have hsame : p.2.events.countP
      ((fun ev => ev.trained.any (fun q => q.2 == ivid)) ∘ enrichEvent ivs busy) =
      p.2.events.countP (fun ev => ev.trained.any (fun q => q.2 == ivid)) := rfl
  rw [hsame]
  have hp2 : (p.1, p.2) ∈ ph1.schedules := by simpa using hp
  rcases mem_scheduler_solve hph1 hp2 with ⟨perm, out, sol, hpair, hsolm, hevents⟩
  have hms := hsound (perm, out) hpair sol hsolm
  obtain ⟨_, _, _, _, _, _, hweekly⟩ := modelSat_destruct hms
  have hexr : (extractSolData (epochOf windows) perm sol).events =
      (List.range perm.length).map (fun i =>
        ({ stage_name := (perm.getD i default).name
           duration := (perm.getD i default).duration_minutes
           start := epochOf windows + sol.starts.getD i 0
           end_ := epochOf windows + sol.starts.getD i 0 +
             (perm.getD i default).duration_minutes
           trained := roleMapOf sol.assigns i (perm.getD i default) "trained"
           shadow := roleMapOf sol.assigns i (perm.getD i default) "shadow"
           reverse_shadow :=
             roleMapOf sol.assigns i (perm.getD i default) "reverse_shadow" } : Event)) :=
    rfl
  rw [hevents, hexr, List.countP_map]
  have hmono : (List.range perm.length).countP
      ((fun ev => Event.trained ev |>.any (fun q => q.2 == ivid)) ∘ (fun i =>
        ({ stage_name := (perm.getD i default).name
           duration := (perm.getD i default).duration_minutes
           start := epochOf windows + sol.starts.getD i 0
           end_ := epochOf windows + sol.starts.getD i 0 +
             (perm.getD i default).duration_minutes
           trained := roleMapOf sol.assigns i (perm.getD i default) "trained"
           shadow := roleMapOf sol.assigns i (perm.getD i default) "shadow"
           reverse_shadow :=
             roleMapOf sol.assigns i (perm.getD i default) "reverse_shadow" } : Event))) ≤
      (List.range perm.length).countP (fun i => usedB sol i ivid) := by
    apply List.countP_mono_left
    intro i _ hpred
    simp only [Function.comp] at hpred
    rw [List.any_eq_true] at hpred
    rcases hpred with ⟨q, hqmem, hq⟩
    rw [beq_iff_eq] at hq
    have hq2 : (q.1, ivid) ∈ roleMapOf sol.assigns i (perm.getD i default) "trained" := by
      rw [← hq]
      exact hqmem
    exact roleMapOf_used hq2
  have hividmem : ivid ∈ ((ivs.filter (fun iv => iv.mode == "trained")).map
      (fun iv => iv.id)).insertionSort (fun a b => a ≤ b) := by
    have hinfomem := List.mem_of_find?_eq_some hfind
    have hinfoid := List.find?_some hfind
    rw [beq_iff_eq] at hinfoid
    have h1 : ivid ∈ (ivs.filter (fun iv => iv.mode == "trained")).map
        (fun iv => iv.id) := by
      rw [← hinfoid]
      exact List.mem_map_of_mem _ hinfomem
    exact (List.Perm.mem_iff (List.perm_insertionSort _ _)).mpr h1
  have hcap : (List.range perm.length).countP (fun i => usedB sol i ivid) +
      info.current_load ≤ cfg.weekly_limit := hweekly ivid hividmem info hfind
  omega

/-- The Phase-1 model solution of the weekly-cap scenario. -/
def c3sol : RawSolution := ⟨[0], [(0, "s1", "trained", "T")]⟩

/-- The Phase-1 formatted schedule of the weekly-cap scenario. -/
def c3phase1sched : FormattedSchedule :=
  ⟨objectiveValue (c3ivs.filter (fun iv => iv.mode == "trained")) ["T"]
      (tempStagesOf c3stages) c3sol,
   (extractSolData 540 (tempStagesOf c3stages) c3sol).events,
   metricsOf (extractSolData 540 (tempStagesOf c3stages) c3sol).events⟩

/-- C3 witness: the amended trained-role cap evaluated on the concrete
two-phase run — the trained interviewer appears in 1 event and
`1 + 0 ≤ 5`. -/
theorem C3_weekly_cap_trained_witness : (1 : Nat) + 0 ≤ 5 := by
  have hres : solve_with_two_phase_approach {} c3ivs [⟨540, 1020⟩] [] c3stages
      c3oracle = Except.ok ⟨"OPTIMAL",
        [("schedule" ++ toString (0 + 1), enrichOne c3ivs [] c3phase1sched)]⟩ := rfl
  refine C3_weekly_cap_trained {} c3ivs [⟨540, 1020⟩] [] c3stages c3oracle
    ⟨"OPTIMAL", [("schedule" ++ toString (0 + 1), enrichOne c3ivs [] c3phase1sched)]⟩
    ("schedule" ++ toString (0 + 1)) (enrichOne c3ivs [] c3phase1sched)
    "T" ⟨"T", 0, 0, "trained"⟩ ?_ hres (List.Mem.head _) (by decide)
  intro p hp sol hsol
  have hzip : (generate_stage_permutations (tempStagesOf c3stages)).zip c3oracle =
      [([⟨"S", 30, [⟨"s1", "trained", ["T"]⟩], false⟩], ⟨[c3sol], none⟩)] := by decide
  rw [hzip] at hp
  simp only [List.mem_cons, List.not_mem_nil, or_false] at hp
  subst hp
  rcases hsol with hsol | hsol
  · rcases List.mem_singleton.mp hsol with rfl
    decide
  · cases hsol

/-- Supporting lemma: each selection keeps all elements — the chosen
element together with the rest is a permutation of the list — and the rest
is one element shorter. -/
theorem selectEach_spec {α : Type} :
    ∀ (l : List α) (p : α × List α), p ∈ selectEach l →
      List.Perm (p.1 :: p.2) l ∧ p.2.length + 1 = l.length := by
  intro l
  induction l with
  | nil =>
    intro p hp
    cases hp
  | cons x xs ih =>
    intro p hp
    unfold selectEach at hp
    rcases List.mem_cons.mp hp with rfl | hp1
    · exact ⟨List.Perm.refl _, by simp⟩
    · rcases List.mem_map.mp hp1 with ⟨q, hq, rfl⟩
      rcases ih q hq with ⟨hperm, hlen⟩
      constructor
      · have h1 : List.Perm (q.1 :: x :: q.2) (x :: q.1 :: q.2) :=
          List.Perm.swap x q.1 q.2
        have h2 : List.Perm (x :: q.1 :: q.2) (x :: xs) := List.Perm.cons _ hperm
        exact h1.trans h2
      · simp only [List.length_cons]
        omega

/-- Supporting lemma: fuel-indexed permutation enumeration produces
permutations of the input list when the fuel equals its length. -/
theorem pyPermAux_perm {α : Type} :
    ∀ (n : Nat) (l : List α) (q : List α), l.length = n →
      q ∈ pyPermAux n l → List.Perm q l := by
  intro n
  induction n with
  | zero =>
    intro l q hlen hq
    unfold pyPermAux at hq
    rcases List.mem_singleton.mp hq with rfl
    cases l with
    | nil => exact List.Perm.refl _
    | cons a t => cases hlen
  | succ m ih =>
    intro l q hlen hq
    unfold pyPermAux at hq
    rcases List.mem_flatMap.mp hq with ⟨p, hp, hq1⟩
    rcases List.mem_map.mp hq1 with ⟨q2, hq2, rfl⟩
    rcases selectEach_spec l p hp with ⟨hperm, hplen⟩
    have hq2perm := ih p.2 q2 (by omega) hq2
    exact List.Perm.trans (List.Perm.cons _ hq2perm) hperm

/-- Supporting lemma: `pyPermutations` produces permutations of its input. -/
theorem pyPermutations_perm {α : Type} {l q : List α}
    (hq : q ∈ pyPermutations l) : List.Perm q l :=
  pyPermAux_perm l.length l q rfl hq

/-- Supporting lemma: interleaving keeps the length when the permuted
non-fixed stages are exactly as many as the non-fixed positions. -/
theorem insertFixed_length :
    ∀ (stages perm : List Stage),
      perm.length = (stages.filter (fun st => !st.is_fixed)).length →
      (insertFixed stages perm).length = stages.length := by
  intro stages
  induction stages with
  | nil =>
    intro perm _
    rfl
  | cons st rest ih =>
    intro perm hlen
    cases hfix : st.is_fixed with
    | true =>
      have hstep : insertFixed (st :: rest) perm = st :: insertFixed rest perm := by
        simp only [insertFixed]
        rw [if_pos hfix]
      rw [hstep]
      have hlen2 : perm.length = (rest.filter (fun s => !s.is_fixed)).length := by
        rwa [List.filter_cons_of_neg (by simp [hfix])] at hlen
      simp [ih perm hlen2]
    | false =>
      rw [List.filter_cons_of_pos (by simp [hfix])] at hlen
      cases perm with
      | nil => cases hlen
      | cons p ps =>
        have hstep : insertFixed (st :: rest) (p :: ps) = p :: insertFixed rest ps := by
          simp only [insertFixed]
          rw [if_neg (by simp [hfix])]
        rw [hstep]
        have hlen2 : ps.length = (rest.filter (fun s => !s.is_fixed)).length := by
          simpa using hlen
        simp [ih ps hlen2]

/-- Supporting lemma: interleaving only uses original and permuted stages. -/
theorem mem_insertFixed :
    ∀ (stages perm : List Stage) (x : Stage),
      x ∈ insertFixed stages perm → x ∈ stages ∨ x ∈ perm := by
  intro stages
  induction stages with
  | nil =>
    intro perm x hx
    cases hx
  | cons st rest ih =>
    intro perm x hx
    cases hfix : st.is_fixed with
    | true =>
      have hstep : insertFixed (st :: rest) perm = st :: insertFixed rest perm := by
        simp only [insertFixed]
        rw [if_pos hfix]
      rw [hstep] at hx
      rcases List.mem_cons.mp hx with rfl | hx1
      · exact Or.inl (List.mem_cons_self _ _)
      · rcases ih perm x hx1 with h1 | h1
        · exact Or.inl (List.mem_cons_of_mem _ h1)
        · exact Or.inr h1
    | false =>
      cases perm with
      | nil =>
        have hstep : insertFixed (st :: rest) [] = [] := by
          simp only [insertFixed]
          rw [if_neg (by simp [hfix])]
        rw [hstep] at hx
        cases hx
      | cons p ps =>
        have hstep : insertFixed (st :: rest) (p :: ps) = p :: insertFixed rest ps := by
          simp only [insertFixed]
          rw [if_neg (by simp [hfix])]
        rw [hstep] at hx
        rcases List.mem_cons.mp hx with rfl | hx1
        · exact Or.inr (List.mem_cons_self _ _)
        · rcases ih ps x hx1 with h1 | h1
          · exact Or.inl (List.mem_cons_of_mem _ h1)
          · exact Or.inr (List.mem_cons_of_mem _ h1)

/-- Supporting lemma: every emitted stage permutation has the original
number of stages and consists of original stages. -/
theorem mem_generate_stage_permutations {stages perm : List Stage}
    (hp : perm ∈ generate_stage_permutations stages) :
    perm.length = stages.length ∧ ∀ st ∈ perm, st ∈ stages := by
  unfold generate_stage_permutations at hp
  simp only at hp
  split at hp
  · rcases List.mem_singleton.mp hp with rfl
    exact ⟨rfl, fun st h => h⟩
  · split at hp
    · rename_i hall hnone
      have hperm := pyPermutations_perm hp
      have hsub : ∀ st ∈ perm, st ∈ stages := by
        intro st hst
        exact List.mem_of_mem_filter (hperm.mem_iff.mp hst)
      have hfl : (stages.filter (fun st => !st.is_fixed)).length = stages.length := by
        have h1 : stages.filter (fun st => st.is_fixed) = [] :=
          List.length_eq_zero.mp hnone
        have h2 : ∀ st ∈ stages, st.is_fixed = false := by
          intro st hst
          by_contra hc
          have : st ∈ stages.filter (fun st => st.is_fixed) :=
            List.mem_filter.mpr ⟨hst, by simpa using hc⟩
          rw [h1] at this
          cases this
        rw [List.filter_eq_self.mpr (by intro a ha; simp [h2 a ha])]
      exact ⟨by rw [hperm.length_eq, hfl], hsub⟩
    · rcases List.mem_map.mp hp with ⟨q, hq, rfl⟩
      have hqperm := pyPermutations_perm hq
      constructor
      · exact insertFixed_length stages q (by rw [hqperm.length_eq])
      · intro st hst
        rcases mem_insertFixed stages q st hst with h1 | h1
        · exact h1
        · exact List.mem_of_mem_filter (hqperm.mem_iff.mp h1)

/-- Supporting lemma: a day covered by one availability window is among the
distinct days of the window list. -/
theorem mem_distinctDays :
    ∀ (windows : List Window) (w : Window), w ∈ windows →
      ∀ x ∈ windowDays w, x ∈ distinctDays windows := by
  intro windows
  induction windows with
  | nil =>
    intro w hw
    cases hw
  | cons v rest ih =>
    intro w hw x hx
    unfold distinctDays
    rcases List.mem_cons.mp hw with rfl | hw1
    · exact Finset.mem_union_right _ hx
    · exact Finset.mem_union_left _ (ih w hw1 x hx)

/-- Supporting lemma: when the windows cover fewer distinct calendar days
than there are stages, no assignment satisfies the Phase-1 model with the
distinct-day constraints active: each stage must start and end inside a
window (placing its start day among the covered days), and the pairwise
≥ 1440-minute constraints force pairwise distinct start days — a pigeonhole
contradiction. -/
theorem modelSat_unsat_of_few_days {cfg : Config} {ivs : List InterviewerInfo}
    {allIvs : List String} {windows : List Window} {busy : List BusyInterval}
    {epoch : Nat} {perm : List Stage} {sol : RawSolution}
    (hreq : cfg.require_distinct_days = true)
    (hcard : (distinctDays windows).card < perm.length) :
    ¬(modelSat cfg ivs allIvs windows busy epoch perm sol = true) := by
  intro hms
  obtain ⟨_, _, hwin, hdays, _, _, _⟩ := modelSat_destruct hms
  have hguard : (cfg.require_distinct_days || !cfg.schedule_on_same_day) = true := by
    rw [hreq]
    rfl
  have hdays2 := hdays hguard
  set n := perm.length with hn
  set f : Fin n → Nat := fun i => (epoch + sol.starts.getD i.1 0) / 1440 with hf
  have hmaps : ∀ i : Fin n, f i ∈ distinctDays windows := by
    intro i
    rcases hwin i.1 i.2 with ⟨w, hwmem, h1, h2⟩
    refine mem_distinctDays windows w hwmem _ ?_
    rw [windowDays, Finset.mem_Icc]
    constructor
    · exact Nat.div_le_div_right h1
    · exact Nat.div_le_div_right (by omega)
  have hinj : Set.InjOn f (Finset.univ : Finset (Fin n)) := by
    intro i _ j _ hfij
    by_contra hne
    have hij : i.1 ≠ j.1 := fun hc => hne (Fin.ext hc)
    have key : ∀ a b : Fin n, a.1 < b.1 → f a ≠ f b := by
      intro a b hab
      rcases hdays2 a.1 b.1 hab b.2 with hord | hord
      · have h1 : (epoch + sol.starts.getD a.1 0 + 1440) / 1440 ≤
            (epoch + sol.starts.getD b.1 0) / 1440 :=
          Nat.div_le_div_right (by omega)
        have h2 : (epoch + sol.starts.getD a.1 0 + 1440) / 1440 =
            (epoch + sol.starts.getD a.1 0) / 1440 + 1 :=
          Nat.add_div_right _ (by omega)
        intro hc
        rw [hf] at hc
        simp only at hc
        omega
      · have h1 : (epoch + sol.starts.getD b.1 0 + 1440) / 1440 ≤
            (epoch + sol.starts.getD a.1 0) / 1440 :=
          Nat.div_le_div_right (by omega)
        have h2 : (epoch + sol.starts.getD b.1 0 + 1440) / 1440 =
            (epoch + sol.starts.getD b.1 0) / 1440 + 1 :=
          Nat.add_div_right _ (by omega)
        intro hc
        rw [hf] at hc
        simp only at hc
        omega
    rcases Nat.lt_or_ge i.1 j.1 with h1 | h1
    · exact key i j h1 hfij
    · have h2 : j.1 < i.1 := by omega
      exact key j i h2 hfij.symm
  have hle := Finset.card_le_card_of_injOn f (fun a _ => hmaps a) hinj
  rw [Finset.card_univ, Fintype.card_fin] at hle
  omega

/-- Supporting lemma: the empty-pool re-check passes when every candidate
pool of the permutation is non-empty. -/
theorem emptyPoolCheck_ok {perm : List Stage}
    (h : ∀ st ∈ perm, ∀ sr ∈ st.seats, sr.interviewers ≠ []) :
    emptyPoolCheck perm = Except.ok () := by
  unfold emptyPoolCheck
  have hnone : perm.findSome? (fun st => st.seats.findSome? (fun sr =>
      if sr.interviewers.isEmpty then
        some (SchedError.emptyPoolInStage sr.seat_id sr.role st.name)
      else none)) = none := by
    rw [List.findSome?_eq_none_iff]
    intro st hst
    rw [List.findSome?_eq_none_iff]
    intro sr hsr
    rw [if_neg]
    simp only [List.isEmpty_iff]
    exact h st hst sr hsr
  rw [hnone]

/-- Supporting lemma: a permutation whose model is unsatisfiable contributes
no solutions when the solver is sound for it. -/
theorem solve_single_permutation_empty {ivs : List InterviewerInfo}
    {allIvs : List String} {epoch : Nat} {perm : List Stage}
    {out : SolverOutput} {cap : Nat}
    (hpools : ∀ st ∈ perm, ∀ sr ∈ st.seats, sr.interviewers ≠ [])
    (hsound : ∀ sol : RawSolution,
      (sol ∈ out.enumerated ∨ out.fallback = some sol) → False) :
    solve_single_permutation ivs allIvs epoch perm out cap = Except.ok [] := by
  have henum : out.enumerated = [] := by
    cases he : out.enumerated with
    | nil => rfl
    | cons s t =>
      exact absurd (Or.inl (by rw [he]; exact List.mem_cons_self _ _))
        (fun hc => hsound s hc)
  have hfb : out.fallback = none := by
    cases hf : out.fallback with
    | none => rfl
    | some s => exact absurd (Or.inr hf) (fun hc => hsound s hc)
  unfold solve_single_permutation
  rw [emptyPoolCheck_ok hpools]
  simp only [henum, hfb, List.take_nil, List.map_nil, List.isEmpty_nil, if_true]

/-- Supporting lemma: when every permutation contributes nothing, the loop
collects one empty contribution per pair. -/
theorem solveContribs_all_empty {cfg : Config} {ivs : List InterviewerInfo}
    {allIvs : List String} {epoch : Nat} :
    ∀ (pairs : List (List Stage × SolverOutput)) (collected : Nat),
      (∀ pr ∈ pairs, ∀ cap, solve_single_permutation ivs allIvs epoch pr.1 pr.2 cap =
        Except.ok []) →
      solveContribs cfg ivs allIvs epoch pairs collected =
        Except.ok (pairs.map (fun _ => [])) := by
  intro pairs
  induction pairs with
  | nil =>
    intro collected _
    rfl
  | cons pr rest ih =>
    intro collected hall
    unfold solveContribs
    rw [hall pr (List.mem_cons_self _ _) (cfg.top_k_solutions - collected)]
    simp only [List.length_nil, Nat.add_zero]
    rw [ih collected (fun q hq cap => hall q (List.mem_cons_of_mem _ hq) cap)]
    rfl

/-- Supporting lemma: the per-stage validation never produces the
InsufficientDays error. -/
theorem validateStages_ne_insufficientDays :
    ∀ (l : List Stage) (found needed : Nat),
      validateStages l ≠ Except.error (SchedError.insufficientDays found needed) := by
  intro l
  induction l with
  | nil =>
    intro found needed h
    cases h
  | cons st rest ih =>
    intro found needed h
    unfold validateStages at h
    split at h
    · cases h
    · split at h
      · cases h
      · split at h
        · rename_i e hfs
          rcases List.exists_of_findSome?_eq_some hfs with ⟨sr, _, hsr⟩
          split at hsr
          · cases h
            cases hsr
          · cases hsr
        · exact ih found needed h

/-- Supporting lemma: the window validation never produces the
InsufficientDays error. -/
theorem validateWindows_ne_insufficientDays :
    ∀ (l : List Window) (found needed : Nat),
      validateWindows l ≠ Except.error (SchedError.insufficientDays found needed) := by
  intro l
  induction l with
  | nil =>
    intro found needed h
    cases h
  | cons w rest ih =>
    intro found needed h
    unfold validateWindows at h
    split at h
    · cases h
    · exact ih found needed h

/-- C10.  With `schedule_on_same_day = true` the distinct-day-count
validation is skipped entirely — normalization can never fail with the
InsufficientDays error — and when `require_distinct_days = true` while the
windows cover fewer distinct calendar days than there are stages, the
pairwise ≥ 1440-minute constraints make every permutation's model
infeasible, so (for a sound solver, with all candidate pools non-empty)
`solve` returns `{status: "INFEASIBLE", schedules: {}}`. -/
theorem C10_same_day_skips_day_check :
    (∀ (cfg : Config) (stagesData : List StageInput)
        (ivsData : List InterviewerInfo) (windows : List Window)
        (busy : List BusyInterval) (found needed : Nat),
      cfg.schedule_on_same_day = true →
      scheduler_init cfg stagesData ivsData windows busy ≠
        Except.error (SchedError.insufficientDays found needed)) ∧
    (∀ (cfg : Config) (ivs : List InterviewerInfo) (allIvs : List String)
        (windows : List Window) (busy : List BusyInterval) (epoch : Nat)
        (stages : List Stage) (oracle : List SolverOutput),
      cfg.require_distinct_days = true →
      cfg.schedule_on_same_day = true →
      (distinctDays windows).card < stages.length →
      (∀ st ∈ stages, ∀ sr ∈ st.seats, sr.interviewers ≠ []) →
      OracleSound cfg ivs allIvs windows busy epoch stages oracle →
      scheduler_solve cfg ivs allIvs epoch stages oracle =
        Except.ok { status := "INFEASIBLE", schedules := [] }) := by
  constructor
  · intro cfg stagesData ivsData windows busy found needed hsame h
    unfold scheduler_init at h
    simp only at h
    split at h
    · cases h
    · split at h
      · rename_i e hval
        cases h
        unfold validate_inputs at hval
        split at hval
        · cases hval
        · split at hval
          · cases hval
            exact validateStages_ne_insufficientDays _ found needed (by assumption)
          · split at hval
            · cases hval
              exact validateWindows_ne_insufficientDays _ found needed (by assumption)
            · unfold validateDays at hval
              rw [hsame] at hval
              simp at hval
      · cases h
  · intro cfg ivs allIvs windows busy epoch stages oracle hreq hsame hcard hpools hsound
    have hcontribs : ∀ pr ∈ (generate_stage_permutations stages).zip oracle,
        ∀ cap, solve_single_permutation ivs allIvs epoch pr.1 pr.2 cap =
          Except.ok [] := by
      intro pr hpr cap
      have hperm := List.of_mem_zip hpr
      have hprops := mem_generate_stage_permutations hperm.1
      refine solve_single_permutation_empty ?_ ?_
      · intro st hst sr hsr
        exact hpools st (hprops.2 st hst) sr hsr
      · intro sol hsol
        have hms := hsound pr hpr sol hsol
        have hcard2 : (distinctDays windows).card < pr.1.length := by
          rw [hprops.1]
          exact hcard
        exact modelSat_unsat_of_few_days hreq hcard2 hms
    unfold scheduler_solve
    simp only
    rw [solveContribs_all_empty _ 0 hcontribs]
    simp only []
    have hflat : (((generate_stage_permutations stages).zip oracle).map
        (fun _ => ([] : List (Int × SolData)))).flatten = [] := by
      rw [List.flatten_eq_nil_iff]
      intro l hl
      rcases List.mem_map.mp hl with ⟨_, _, rfl⟩
      rfl
    rw [hflat]
    rw [show (List.insertionSort scoreLe ([] : List (Int × SolData))) = [] from rfl,
      List.take_nil]
    rfl

/-- Two stages with non-empty trained pools for the C10 scenario. -/
def c10stages : List Stage :=
  [⟨"A", 30, [⟨"a1", "trained", ["T"]⟩], false⟩,
   ⟨"B", 45, [⟨"b1", "trained", ["T"]⟩], false⟩]

/-- C10 witness: with `require_distinct_days = true` and
`schedule_on_same_day = true`, a two-stage request over a single-day window
passes normalization (no InsufficientDays error) and a sound solver finds
every permutation infeasible, so solve reports INFEASIBLE with no
schedules. -/
theorem C10_same_day_skips_day_check_witness :
    (scheduler_init { require_distinct_days := true }
        [⟨"A", 30, false, ["a1"]⟩, ⟨"B", 45, false, ["b1"]⟩]
        [⟨"T", 0, 0, "trained"⟩, ⟨"Sh", 0, 0, "shadow"⟩, ⟨"R", 0, 0, "reverse_shadow"⟩]
        [⟨540, 1020⟩] [] ≠
      Except.error (SchedError.insufficientDays 1 2)) ∧
    (scheduler_solve { require_distinct_days := true } [⟨"T", 0, 0, "trained"⟩]
        ["T"] 540 c10stages [⟨[], none⟩, ⟨[], none⟩] =
      Except.ok { status := "INFEASIBLE", schedules := [] }) := by
  constructor
  · exact C10_same_day_skips_day_check.1 _ _ _ _ _ 1 2 rfl
  · refine C10_same_day_skips_day_check.2 { require_distinct_days := true }
      [⟨"T", 0, 0, "trained"⟩] ["T"] [⟨540, 1020⟩] [] 540 c10stages
      [⟨[], none⟩, ⟨[], none⟩] rfl rfl (by decide) (by decide) ?_
    intro p hp sol hsol
    have hp2 := (List.of_mem_zip hp).2
    simp only [List.mem_cons, List.not_mem_nil, or_false] at hp2
    exfalso
    rcases hsol with hsol | hsol
    · rcases hp2 with h2 | h2 <;> rw [h2] at hsol <;> cases hsol
    · rcases hp2 with h2 | h2 <;> rw [h2] at hsol <;> cases hsol
